import Mathlib

/-!
Verification of the AM/FM Monte Carlo simulation engine.

This file is a shallow embedding, over the real numbers, of the core of the
Go repository: signal generation, AWGN noise injection, AM/FM demodulation,
SNR metrics, the per-SNR-point statistical aggregator, the sequential and
parallel Monte Carlo sweeps, and the top-level run-sweep operation.

Modelling conventions:
* Go `float64` arithmetic is modelled by exact real arithmetic.  Division by
  zero follows the Lean convention `x / 0 = 0`; places where the Go code can
  produce `±Inf`/`NaN` are noted at the individual definitions.  The SNR
  metric, whose documented contract includes a genuine `+Inf` result, is
  modelled with codomain `EReal`.
* `make([]float64, n)` panics for negative `n`; functions that can reach such
  a panic are modelled with an `Option` codomain, `none` denoting the panic.
* Pseudo-random generators are modelled by abstract streams of standard
  normal draws: an `RNG` is a stream `ℕ → ℝ` together with a position, and
  `rand.New(rand.NewSource(s))` corresponds to a stream chosen by a family
  `norm : ℤ → ℕ → ℝ` indexed by the seed `s`.
-/

namespace AMFM

noncomputable section

/-- Modulation scheme selector, mirroring the Go `ModulationType` string enum
with its two constants `AM` and `FM`. -/
inductive ModulationType where
  | AM : ModulationType
  | FM : ModulationType
deriving DecidableEq, Repr

/-- A sampled signal: parallel lists of timestamps and amplitude values,
mirroring the Go `Signal` struct. -/
structure Signal where
  time : List ℝ
  values : List ℝ

/-- Waveform-family configuration, mirroring the Go `SignalParams` struct. -/
structure SignalParams where
  samplingRate : ℝ
  duration : ℝ
  messageFreq : ℝ
  carrierFreq : ℝ
  messageAmp : ℝ
  carrierAmp : ℝ
  modulationIdx : ℝ

/-- One aggregated statistic per SNR point, mirroring the Go
`PerformanceResult` struct. -/
structure PerformanceResult where
  inputSNRdB : ℝ
  outputSNRdB : ℝ
  stdDev : ℝ
  modulationType : ModulationType
  numTrials : ℕ

/-- A deterministic generator state: an abstract stream of standard normal
draws together with the current position.  `rng.NormFloat64()` returns
`stream pos` and advances `pos`. -/
structure RNG where
  stream : ℕ → ℝ
  pos : ℕ

/-- One `NormFloat64` draw from the generator. -/
def RNG.normFloat64 (r : RNG) : ℝ × RNG :=
  (r.stream r.pos, ⟨r.stream, r.pos + 1⟩)

/-- Go `int(x)` conversion for `float64`, which truncates toward zero. -/
def goTrunc (x : ℝ) : ℤ :=
  if 0 ≤ x then ⌊x⌋ else ⌈x⌉

/-- Number of samples `int(params.SamplingRate * params.Duration)` computed by
`generateTimeVector`; negative values make `make` panic. -/
def numSamplesZ (params : SignalParams) : ℤ :=
  goTrunc (params.samplingRate * params.duration)

/-- Model of `generateTimeVector` (main.go): `time[i] = float64(i) * dt` with
`dt = 1 / samplingRate`.  The result is `none` when the sample count is
negative, in which case the Go `make` call panics. -/
def generateTimeVector (params : SignalParams) : Option (List ℝ) :=
  if numSamplesZ params < 0 then none
  else some ((List.range (numSamplesZ params).toNat).map
    (fun i : ℕ => (i : ℝ) * (1 / params.samplingRate)))

/-- Model of `generateBaseband` (main.go):
`m(t) = Am * sin(2π * fm * t)` over the generated time vector. -/
def generateBaseband (params : SignalParams) : Option Signal :=
  (generateTimeVector params).map (fun time =>
    ⟨time, time.map (fun t =>
      params.messageAmp * Real.sin (2 * Real.pi * params.messageFreq * t))⟩)

/-- Model of `generateCarrier` (main.go):
`c(t) = Ac * sin(2π * fc * t)` over the generated time vector. -/
def generateCarrier (params : SignalParams) : Option Signal :=
  (generateTimeVector params).map (fun time =>
    ⟨time, time.map (fun t =>
      params.carrierAmp * Real.sin (2 * Real.pi * params.carrierFreq * t))⟩)

/-- Model of `generateAM` (main.go):
`s(t) = Ac * (1 + ka * m(t)) * sin(2π * fc * t)` with the message recomputed
inline. -/
def generateAM (params : SignalParams) : Option Signal :=
  (generateTimeVector params).map (fun time =>
    ⟨time, time.map (fun t =>
      params.carrierAmp *
        (1 + params.modulationIdx *
          (params.messageAmp * Real.sin (2 * Real.pi * params.messageFreq * t))) *
        Real.sin (2 * Real.pi * params.carrierFreq * t))⟩)

/-- Inner loop of `generateFM`: walks the remaining timestamps carrying the
running trapezoidal integral of the message and the previous message sample,
emitting `Ac * sin(2π * fc * t + kf * integral)` at each step. -/
def generateFMAux (params : SignalParams) (dt : ℝ) :
    ℝ → ℝ → List ℝ → List ℝ
  | _, _, [] => []
  | integral, prevMessage, t :: ts =>
    let message := params.messageAmp * Real.sin (2 * Real.pi * params.messageFreq * t)
    let integral2 := integral + (message + prevMessage) * dt / 2
    (params.carrierAmp *
        Real.sin (2 * Real.pi * params.carrierFreq * t + params.modulationIdx * integral2)) ::
      generateFMAux params dt integral2 message ts

/-- Model of `generateFM` (main.go): FM with the message integral accumulated
by the trapezoidal rule; the first sample uses integral `0` (no update). -/
def generateFM (params : SignalParams) : Option Signal :=
  (generateTimeVector params).map (fun time =>
    ⟨time,
      match time with
      | [] => []
      | t0 :: ts =>
        let dt := 1 / params.samplingRate
        let message0 := params.messageAmp * Real.sin (2 * Real.pi * params.messageFreq * t0)
        (params.carrierAmp * Real.sin (2 * Real.pi * params.carrierFreq * t0 + params.modulationIdx * 0)) ::
          generateFMAux params dt 0 message0 ts⟩)

/-- Running sum of squares `for _, val := range values { power += val * val }`
as it appears in the noise injector and the SNR metric. -/
def sumSq (values : List ℝ) : ℝ :=
  values.foldl (fun acc v => acc + v * v) 0

/-- Sample loop of the AWGN injectors: each output sample is
`val + rng.NormFloat64() * noiseStdDev`, consuming one draw per sample. -/
def awgnLoop (noiseStdDev : ℝ) : List ℝ → RNG → List ℝ × RNG
  | [], rng => ([], rng)
  | v :: vs, rng =>
    let draw := rng.normFloat64
    let rest := awgnLoop noiseStdDev vs draw.2
    ((v + draw.1 * noiseStdDev) :: rest.1, rest.2)

/-- Model of `addAWGNWithRNG` (main.go): derive the noise standard deviation
from the mean square of the input and the linear SNR ratio, then add one
scaled draw per sample.  For an empty signal the Go code computes `0/0 = NaN`
for the signal power; the model yields `0`, and no sample is produced in
either case. -/
def addAWGNWithRNG (signal : Signal) (snrDB : ℝ) (rng : RNG) : Signal × RNG :=
  let signalPower := sumSq signal.values / (signal.values.length : ℝ)
  let snrLinear := (10 : ℝ) ^ (snrDB / 10)
  let noiseVariance := signalPower / snrLinear
  let noiseStdDev := Real.sqrt noiseVariance
  let res := awgnLoop noiseStdDev signal.values rng
  (⟨signal.time, res.1⟩, res.2)

/-- Model of `addAWGN` (main.go), the default-generator entry point.  The Go
code draws from `distuv.Normal{Mu: 0, Sigma: noiseStdDev}` over the process
global source, i.e. `noiseStdDev` times a standard normal draw, so its body
coincides with `addAWGNWithRNG` applied to the ambient global stream. -/
def addAWGN (signal : Signal) (snrDB : ℝ) (rng : RNG) : Signal × RNG :=
  let signalPower := sumSq signal.values / (signal.values.length : ℝ)
  let snrLinear := (10 : ℝ) ^ (snrDB / 10)
  let noiseVariance := signalPower / snrLinear
  let noiseStdDev := Real.sqrt noiseVariance
  let res := awgnLoop noiseStdDev signal.values rng
  (⟨signal.time, res.1⟩, res.2)

/-- One output sample of the centered moving-average filter of window size 20
used by both demodulators: the window is `[i-10, i+10]` clamped to the array
bounds, and the output is the window mean. -/
def movingAvgAt (l : List ℝ) (i : ℕ) : ℝ :=
  let lo := i - 10
  let hi := min (l.length - 1) (i + 10)
  let window := (l.drop lo).take (hi + 1 - lo)
  window.foldl (fun acc v => acc + v) 0 / (window.length : ℝ)

/-- The centered moving-average low-pass filter (window size 20, clamped at
the boundaries) applied by `demodulateAM` and `demodulateFM`; the two Go
loops are textually identical. -/
def movingAvg (l : List ℝ) : List ℝ :=
  (List.range l.length).map (movingAvgAt l)

/-- Model of `demodulateAM` (main.go): full-wave rectification followed by
the moving-average filter; timestamps are copied unchanged. -/
def demodulateAM (signal : Signal) : Signal :=
  ⟨signal.time, movingAvg (signal.values.map (fun v => |v|))⟩

/-- The quadrature companion built by `demodulateFM`: a one-sample delay of
the input, with `quad[0] = values[0]`. -/
def quadOf (values : List ℝ) : List ℝ :=
  match values with
  | [] => []
  | v0 :: _ => v0 :: values.dropLast

/-- The pre-smoothing FM discriminator sample at index `i`: zero at index 0,
otherwise the cross-product instantaneous-frequency estimate divided by the
modulation index, guarded by the `denominator > 1e-10` test. -/
def fmRawAt (values quad : List ℝ) (dt kf : ℝ) (i : ℕ) : ℝ :=
  if i = 0 then 0
  else
    let icur := values.getD i 0
    let qcur := quad.getD i 0
    let di := icur - values.getD (i - 1) 0
    let dq := qcur - quad.getD (i - 1) 0
    let numerator := icur * dq - qcur * di
    let denominator := icur * icur + qcur * qcur
    if denominator > 1e-10 then
      numerator / (2 * Real.pi * dt * denominator) / kf
    else 0

/-- Model of `demodulateFM` (main.go): quadrature discrimination with the
one-sample-delay companion, followed by the same moving-average filter as
`demodulateAM`; timestamps are copied unchanged. -/
def demodulateFM (signal : Signal) (params : SignalParams) : Signal :=
  let dt := 1 / params.samplingRate
  let quad := quadOf signal.values
  let raw := (List.range signal.values.length).map
    (fmRawAt signal.values quad dt params.modulationIdx)
  ⟨signal.time, movingAvg raw⟩

/-- The accumulation loop of `calculateSNR`: a single pass over the indices of
the original signal, summing squared original samples and squared per-sample
differences. -/
def snrSums (original noisy : List ℝ) : ℝ × ℝ :=
  (List.range original.length).foldl
    (fun acc i =>
      let ov := original.getD i 0
      let nv := noisy.getD i 0
      (acc.1 + ov * ov, acc.2 + (nv - ov) * (nv - ov)))
    (0, 0)

/-- Model of `calculateSNR` (main.go).  The codomain is `EReal` so that the
explicit `math.Inf(1)` returned on exactly-zero noise power is represented
faithfully as `⊤`. -/
def calculateSNR (original noisy : Signal) : EReal :=
  let s := snrSums original.values noisy.values
  let signalPower := s.1 / (original.values.length : ℝ)
  let noisePower := s.2 / (original.values.length : ℝ)
  if noisePower = 0 then ⊤
  else ((10 * Real.logb 10 (signalPower / noisePower) : ℝ) : EReal)

/-- The finite branch of `calculateSNR`, used to model the `float64` value
that the simulation pipeline stores into its measurement slices.  It agrees
with `calculateSNR` whenever the noise power is nonzero. -/
def calculateSNRfin (original noisy : Signal) : ℝ :=
  let s := snrSums original.values noisy.values
  let signalPower := s.1 / (original.values.length : ℝ)
  let noisePower := s.2 / (original.values.length : ℝ)
  10 * Real.logb 10 (signalPower / noisePower)

/-- Model of `computeOutputSNR` (Phase-4 file): delegates to `calculateSNR`;
the pipeline model uses the finite branch. -/
def computeOutputSNR (originalMessage demodulatedSignal : Signal) : ℝ :=
  calculateSNRfin originalMessage demodulatedSignal

/-- Model of `calculateMean` (main.go): running sum divided by the length.
For an empty list the Go code computes `0/0 = NaN`; the model yields `0`. -/
def calculateMean (values : List ℝ) : ℝ :=
  values.foldl (fun acc v => acc + v) 0 / (values.length : ℝ)

/-- Model of `calculateStdDev` (main.go): sample standard deviation with
`N - 1` in the denominator.  For `N ≤ 1` the Go code divides by zero or a
negative count; the model follows the Lean `x / 0 = 0` convention. -/
def calculateStdDev (values : List ℝ) (mean : ℝ) : ℝ :=
  Real.sqrt
    ((values.foldl (fun acc v => acc + (v - mean) * (v - mean)) 0) /
      ((values.length : ℝ) - 1))

/-- One iteration of the trial loop inside `runSingleSNRSimulation`
(main.go): generate the baseband message and the modulated carrier, corrupt
the carrier with AWGN from the supplied generator, demodulate, and score the
demodulated signal against the baseband.  `none` models a generator panic. -/
def runSingleTrial (modType : ModulationType) (params : SignalParams)
    (targetSNR : ℝ) (rng : RNG) : Option (ℝ × RNG) :=
  (generateBaseband params).bind (fun originalMessage =>
    (match modType with
      | ModulationType.AM => generateAM params
      | ModulationType.FM => generateFM params).bind (fun modulatedSignal =>
      let noisy := addAWGNWithRNG modulatedSignal targetSNR rng
      let demodulatedSignal :=
        match modType with
        | ModulationType.AM => demodulateAM noisy.1
        | ModulationType.FM => demodulateFM noisy.1 params
      some (computeOutputSNR originalMessage demodulatedSignal, noisy.2)))

/-- The trial loop of `runSingleSNRSimulation`: run `n` trials, collecting
the per-trial output SNR measurements in order and threading the generator
state. -/
def runTrialsAux (modType : ModulationType) (params : SignalParams)
    (targetSNR : ℝ) : ℕ → RNG → Option (List ℝ × RNG)
  | 0, rng => some ([], rng)
  | Nat.succ k, rng =>
    (runSingleTrial modType params targetSNR rng).bind (fun tr =>
      (runTrialsAux modType params targetSNR k tr.2).bind (fun rest =>
        some (tr.1 :: rest.1, rest.2)))

/-- Model of `runSingleSNRSimulation` (main.go): the statistical aggregator
for one SNR point — `numIterations` trials, then mean and sample standard
deviation of the measurement list. -/
def runSingleSNRSimulation (modType : ModulationType) (params : SignalParams)
    (targetSNR : ℝ) (numIterations : ℕ) (rng : RNG) :
    Option (PerformanceResult × RNG) :=
  (runTrialsAux modType params targetSNR numIterations rng).bind (fun res =>
    let mean := calculateMean res.1
    let stdDev := calculateStdDev res.1 mean
    some (⟨targetSNR, mean, stdDev, modType, numIterations⟩, res.2))

/-- The correlation accumulation loop of `alignSignals` for one candidate
delay: the sum of `reference[i] * signal[i+delay]` over in-range indices
together with the number of such indices. -/
def corrCount (reference signal : List ℝ) (delay : ℤ) : ℝ × ℕ :=
  (List.range reference.length).foldl
    (fun (acc : ℝ × ℕ) (i : ℕ) =>
      let j := (i : ℤ) + delay
      if 0 ≤ j ∧ j < (reference.length : ℤ) then
        (acc.1 + reference.getD i 0 * signal.getD j.toNat 0, acc.2 + 1)
      else acc)
    (0, 0)

/-- One step of the best-delay scan of `alignSignals`: evaluate the candidate
delay `d` and keep it if its count-normalized correlation strictly improves
on the best seen so far.  `none` in the accumulator stands for the Go
initialisation `maxCorr = -Inf`; a candidate with zero overlap is skipped
without comparison, as in the Go code. -/
def alignStep (reference signal : List ℝ) (acc : Option ℝ × ℤ) (d : ℤ) :
    Option ℝ × ℤ :=
  let c := corrCount reference signal d
  if 0 < c.2 then
    let corr := c.1 / (c.2 : ℝ)
    match acc.1 with
    | none => (some corr, d)
    | some m => if corr > m then (some corr, d) else acc
  else acc

/-- The best-delay scan of `alignSignals`: walk the candidate delays keeping
the best count-normalized correlation seen so far, starting from the Go
initialisation `maxCorr = -Inf`, `bestDelay = 0`. -/
def alignScan (reference signal : List ℝ) (delays : List ℤ) : Option ℝ × ℤ :=
  delays.foldl (alignStep reference signal) (none, 0)

/-- The candidate delays scanned by `alignSignals` on a reference of length
`n`: the window `[-maxDelay, maxDelay]` with `maxDelay = min (n/10) 100`. -/
def delayWindow (n : ℕ) : List ℤ :=
  (List.range (2 * min (n / 10) 100 + 1)).map
    (fun k : ℕ => (k : ℤ) - ((min (n / 10) 100 : ℕ) : ℤ))

/-- The output loop of `alignSignals`: shift the candidate by the chosen
delay over index range `n`, zero-filling out-of-range samples. -/
def shiftWithZeroFill (signal : List ℝ) (n : ℕ) (d : ℤ) : List ℝ :=
  (List.range n).map (fun i =>
    if 0 ≤ (i : ℤ) + d ∧ (i : ℤ) + d < (n : ℤ) then
      signal.getD ((i : ℤ) + d).toNat 0
    else 0)

/-- The delay selected by the scan of `alignSignals`. -/
def bestDelay (reference signal : List ℝ) : ℤ :=
  (alignScan reference signal (delayWindow reference.length)).2

/-- Model of `alignSignals` (phase7_demodulation_tests.go): search delays in
`[-maxDelay, maxDelay]` with `maxDelay = min (n/10) 100` for the delay with
the best count-normalized dot-product correlation against the reference,
then shift the candidate by the best delay, zero-filling out-of-range
samples.  Mismatched lengths return the candidate unchanged. -/
def alignSignals (reference signal : List ℝ) : List ℝ :=
  if reference.length ≠ signal.length then signal
  else shiftWithZeroFill signal reference.length (bestDelay reference signal)

/-- The single-trial operation as the specification describes it: identical
to `runSingleTrial` except that for FM the demodulated output is first
aligned against the baseband message with `alignSignals` and only then
scored.  This definition follows the claim wording and exists to be compared
with `runSingleTrial`, which is translated from the source. -/
def runSingleTrialClaim (modType : ModulationType) (params : SignalParams)
    (targetSNR : ℝ) (rng : RNG) : Option (ℝ × RNG) :=
  (generateBaseband params).bind (fun originalMessage =>
    (match modType with
      | ModulationType.AM => generateAM params
      | ModulationType.FM => generateFM params).bind (fun modulatedSignal =>
      let noisy := addAWGNWithRNG modulatedSignal targetSNR rng
      let demodulatedSignal :=
        match modType with
        | ModulationType.AM => demodulateAM noisy.1
        | ModulationType.FM => demodulateFM noisy.1 params
      let scoredSignal :=
        match modType with
        | ModulationType.AM => demodulatedSignal
        | ModulationType.FM =>
          ⟨demodulatedSignal.time,
            alignSignals originalMessage.values demodulatedSignal.values⟩
      some (computeOutputSNR originalMessage scoredSignal, noisy.2)))

/-- Model of the sequential sweep `simulateSNRPerformance` (Phase-4 file):
one aggregated result per SNR point, threading a single generator stream
through the whole sweep.  The per-point trial loop of the source is
line-for-line the aggregator `runSingleSNRSimulation`; the source draws its
noise through the process-global generator, modelled by the `RNG` argument. -/
def simulateSNRPerformance (modType : ModulationType) (params : SignalParams) :
    List ℝ → ℕ → RNG → Option (List PerformanceResult × RNG)
  | [], _, rng => some ([], rng)
  | snr :: rest, numTrials, rng =>
    (runSingleSNRSimulation modType params snr numTrials rng).bind (fun r =>
      (simulateSNRPerformance modType params rest numTrials r.2).bind (fun rs =>
        some (r.1 :: rs.1, rs.2)))

/-- One worker of `runParallelMonteCarloSimulation` (main.go): process the
worker's queue of SNR-point jobs in order, running the full aggregator for
AM and then FM at each job's target SNR with the worker's private generator,
and emit `(sweep index, result)` write records for both schemes. -/
def workerRun (amParams fmParams : SignalParams) (snrRange : List ℝ)
    (numIterations : ℕ) :
    List ℕ → RNG → Option (List (ℕ × PerformanceResult) × List (ℕ × PerformanceResult) × RNG)
  | [], rng => some ([], [], rng)
  | j :: jobs, rng =>
    (runSingleSNRSimulation ModulationType.AM amParams (snrRange.getD j 0)
        numIterations rng).bind (fun am =>
      (runSingleSNRSimulation ModulationType.FM fmParams (snrRange.getD j 0)
          numIterations am.2).bind (fun fm =>
        (workerRun amParams fmParams snrRange numIterations jobs fm.2).bind (fun rest =>
          some ((j, am.1) :: rest.1, (j, fm.1) :: rest.2.1, rest.2.2))))

/-- Baked-in Go zero value used by `make([]PerformanceResult, n)` before any
worker write lands.  The Go zero modulation type is the empty string; since a
valid schedule overwrites every slot, the placeholder never survives. -/
def defaultPerformanceResult : PerformanceResult :=
  ⟨0, 0, 0, ModulationType.AM, 0⟩

/-- Replay a list of indexed write records into a result array, as the
collection loops of the parallel runners do with `results[result.index] =
result.result`. -/
def applyWrites (writes : List (ℕ × PerformanceResult))
    (init : List PerformanceResult) : List PerformanceResult :=
  writes.foldl (fun acc w => acc.set w.1 w.2) init

/-- Spawn loop of `runParallelMonteCarloSimulation`: worker `w` (counting
from the supplied index) runs its assigned job list with the private
generator stream `norm (seed + w)` started at position 0, mirroring
`rand.New(rand.NewSource(config.Seed + int64(workerID)))`; the write records
of all workers are concatenated. -/
def collectWorkers (norm : ℤ → ℕ → ℝ) (seed : ℤ)
    (amParams fmParams : SignalParams) (snrRange : List ℝ) (numIterations : ℕ) :
    List (List ℕ) → ℤ →
      Option (List (ℕ × PerformanceResult) × List (ℕ × PerformanceResult))
  | [], _ => some ([], [])
  | jobs :: rest, w =>
    (workerRun amParams fmParams snrRange numIterations jobs ⟨norm (seed + w), 0⟩).bind
      (fun res =>
        (collectWorkers norm seed amParams fmParams snrRange numIterations rest
            (w + 1)).bind (fun acc =>
          some (res.1 ++ acc.1, res.2.1 ++ acc.2)))

/-- Model of `runParallelMonteCarloSimulation` (main.go).  The shared FIFO
job channel together with the racy pulls of the workers is abstracted into a
`schedule`: entry `w` is the ordered list of sweep indices that worker `w`
happened to pull.  Results are merged back into pre-sized arrays indexed by
each job's original sweep position. -/
def runParallelMonteCarloSimulation (norm : ℤ → ℕ → ℝ)
    (amParams fmParams : SignalParams) (seed : ℤ) (snrRange : List ℝ)
    (numIterations : ℕ) (schedule : List (List ℕ)) :
    Option (List PerformanceResult × List PerformanceResult) :=
  (collectWorkers norm seed amParams fmParams snrRange numIterations schedule 0).map
    (fun writes =>
      (applyWrites writes.1 (List.replicate snrRange.length defaultPerformanceResult),
       applyWrites writes.2 (List.replicate snrRange.length defaultPerformanceResult)))

/-- A schedule is an execution of the shared job queue: every sweep index is
pulled by exactly one worker, exactly once. -/
def ValidSchedule (schedule : List (List ℕ)) (n : ℕ) : Prop :=
  schedule.flatten.Perm (List.range n)

/-- One worker of `simulateSNRPerformanceParallel` (Phase-4 file): a single
modulation scheme per job. -/
def workerRunSingle (modType : ModulationType) (params : SignalParams)
    (snrRange : List ℝ) (numTrials : ℕ) :
    List ℕ → RNG → Option (List (ℕ × PerformanceResult) × RNG)
  | [], rng => some ([], rng)
  | j :: jobs, rng =>
    (runSingleSNRSimulation modType params (snrRange.getD j 0) numTrials rng).bind
      (fun r =>
        (workerRunSingle modType params snrRange numTrials jobs r.2).bind (fun rest =>
          some ((j, r.1) :: rest.1, rest.2)))

/-- Spawn loop of `simulateSNRPerformanceParallel`.  In the source every
worker draws from the single shared process-global generator; the interleaved
subsequence of draws that worker `w` happens to receive is abstracted as the
stream `wstreams w`. -/
def collectWorkersSingle (wstreams : ℕ → ℕ → ℝ) (modType : ModulationType)
    (params : SignalParams) (snrRange : List ℝ) (numTrials : ℕ) :
    List (List ℕ) → ℕ → Option (List (ℕ × PerformanceResult))
  | [], _ => some []
  | jobs :: rest, w =>
    (workerRunSingle modType params snrRange numTrials jobs ⟨wstreams w, 0⟩).bind
      (fun res =>
        (collectWorkersSingle wstreams modType params snrRange numTrials rest
            (w + 1)).bind (fun acc => some (res.1 ++ acc)))

/-- Model of `simulateSNRPerformanceParallel` (Phase-4 file): distribute the
sweep indices over a worker pool according to `schedule` and merge the
results back by sweep index. -/
def simulateSNRPerformanceParallel (wstreams : ℕ → ℕ → ℝ)
    (modType : ModulationType) (params : SignalParams) (snrRange : List ℝ)
    (numTrials : ℕ) (schedule : List (List ℕ)) : Option (List PerformanceResult) :=
  (collectWorkersSingle wstreams modType params snrRange numTrials schedule 0).map
    (fun writes =>
      applyWrites writes (List.replicate snrRange.length defaultPerformanceResult))

/-- Run configuration, mirroring the Go `SimulationConfig` struct
(montecarlo.go). -/
structure SimulationConfig where
  seed : ℤ
  numTrials : ℕ
  numWorkers : ℕ
  snrRange : List ℝ
  useParallel : Bool

/-- Model of `OptimizedMonteCarloSimulation` (montecarlo.go), the run-sweep
operation.  `crypto` models `generateCryptoSeed()`: `none` when the secure
random source fails.  The result is `some (Except.error ())` when the Go
function returns a non-nil error, `some (Except.ok results)` when it returns
normally, and `none` when a generator panic aborts the run.  `norm` maps a
seed to its generator stream; `wstreams` abstracts the shared-generator
draws of the parallel path as in `simulateSNRPerformanceParallel`. -/
def OptimizedMonteCarloSimulation (crypto : Option ℤ) (norm : ℤ → ℕ → ℝ)
    (wstreams : ℕ → ℕ → ℝ) (amParams fmParams : SignalParams)
    (config : SimulationConfig) (schedule : List (List ℕ)) :
    Option (Except Unit (List PerformanceResult × List PerformanceResult)) :=
  let seedChoice := if config.seed = 0 then crypto else some config.seed
  match seedChoice with
  | none => some (Except.error ())
  | some seed =>
    if config.useParallel = true ∧ 1 < config.numWorkers then
      (simulateSNRPerformanceParallel wstreams ModulationType.AM amParams
          config.snrRange config.numTrials schedule).bind (fun am =>
        (simulateSNRPerformanceParallel wstreams ModulationType.FM fmParams
            config.snrRange config.numTrials schedule).bind (fun fm =>
          some (Except.ok (am, fm))))
    else
      (simulateSNRPerformance ModulationType.AM amParams config.snrRange
          config.numTrials ⟨norm seed, 0⟩).bind (fun am =>
        (simulateSNRPerformance ModulationType.FM fmParams config.snrRange
            config.numTrials am.2).bind (fun fm =>
          some (Except.ok (am.1, fm.1))))

/-- Concrete AM parameter set used for counterexamples and witnesses:
4 Hz sampling for 1 s (4 samples), 1 Hz message and carrier, unit
amplitudes, 50% AM modulation. -/
def amParamsC1 : SignalParams := ⟨4, 1, 1, 1, 1, 1, 1 / 2⟩

/-- Concrete FM parameter set with 4 samples: zero carrier frequency and
modulation index `4π`, so that every FM sample evaluates exactly. -/
def fmParamsC1 : SignalParams := ⟨4, 1, 1, 0, 1, 1, 4 * Real.pi⟩

/-- The clean AM waveform generated by `amParamsC1`. -/
def amCleanC1 : List ℝ := [0, 3 / 2, 0, -(1 / 2)]

/-- A concrete seed-indexed family of generator streams: seed 8 starts with
four draws chosen so that the corrupted AM waveform becomes `[2, 2, 2, 2]`;
every other draw of every seed is zero. -/
def normC1 : ℤ → ℕ → ℝ := fun s k =>
  if s = 8 ∧ k < 4 then (2 - amCleanC1.getD k 0) * (Real.sqrt (5 / 8))⁻¹ else 0

/-- Concrete FM parameter set with 10 samples (4 Hz for 2.5 s): zero carrier
frequency and modulation index `4π`. -/
def fmParamsC2 : SignalParams := ⟨4, 5 / 2, 1, 0, 1, 1, 4 * Real.pi⟩

/-- The clean FM waveform generated by `fmParamsC2`. -/
def fmCleanC2 : List ℝ := [0, 1, 0, 1, 0, 1, 0, 1, 0, 1]

/-- The corrupted waveform targeted by `streamC2`. -/
def noisyTargetC2 : List ℝ := [2, 2, 0, 0, 0, 0, 0, 0, 0, 0]

/-- A concrete generator stream whose first ten draws turn the clean FM
waveform of `fmParamsC2` into `noisyTargetC2` at target SNR 0 dB. -/
def streamC2 : ℕ → ℝ := fun k =>
  (noisyTargetC2.getD k 0 - fmCleanC2.getD k 0) * Real.sqrt 2

/-- Degenerate parameters with negative duration and unit sampling rate:
`int(1 * -1) = -1`, so every generator panics in `make`. -/
def degenerateParams : SignalParams := ⟨1, -1, 5, 50, 1, 1, 1 / 2⟩

/-- Degenerate parameters with negative duration at 1 kHz sampling:
`int(1000 * -1) = -1000`, so every generator panics in `make`. -/
def negDurationParams : SignalParams := ⟨1000, -1, 5, 50, 1, 1, 1 / 2⟩

/-- The negative-sampling-rate input of the repository's own robustness test
(phase7_comprehensive_tests.go, `Error Handling and Robustness`). -/
def robustnessTestParams : SignalParams := ⟨-1000, 1 / 10, 100, 1000, 1, 1, 0⟩

/-- Harmless parameters whose sample count is zero (duration 0). -/
def okParams : SignalParams := ⟨2, 0, 5, 50, 1, 1, 1 / 2⟩

/-- Parameters with a positive sample count (2 Hz for 1.5 s, 3 samples). -/
def posParams : SignalParams := ⟨2, 3 / 2, 1, 1, 1, 1, 1⟩

/-- Run-sweep configuration with a nonzero seed, one trial, one SNR point,
sequential execution. -/
def configC9 : SimulationConfig := ⟨1, 1, 1, [0], false⟩

/-- The AM aggregate produced by one zero-noise trial at `amParamsC1`. -/
def resultAMzero : PerformanceResult :=
  ⟨0, 10 * Real.logb 10 (2 / 3), 0, ModulationType.AM, 1⟩

/-- The AM aggregate produced by the seed-8 draws of `normC1`. -/
def resultAMstreamB : PerformanceResult :=
  ⟨0, 10 * Real.logb 10 (1 / 9), 0, ModulationType.AM, 1⟩

/-- The FM aggregate produced by one zero-noise trial at `fmParamsC1`. -/
def resultFMzero : PerformanceResult := ⟨0, 0, 0, ModulationType.FM, 1⟩

/-- The constant value of the smoothed FM discriminator output on
`noisyTargetC2`. -/
def cC2 : ℝ := 1 / (20 * Real.pi ^ 2)

/-- The baseband message generated by `fmParamsC2`. -/
def basebandValsC2 : List ℝ := [0, 1, 0, -1, 0, 1, 0, -1, 0, 1]

/-- The ten timestamps generated by `fmParamsC2`. -/
def timeValsC2 : List ℝ :=
  [0, 1 / 4, 1 / 2, 3 / 4, 1, 5 / 4, 3 / 2, 7 / 4, 2, 9 / 4]

/-- The smoothed FM demodulator output on `noisyTargetC2`. -/
def demodValsC2 : List ℝ :=
  [cC2, cC2, cC2, cC2, cC2, cC2, cC2, cC2, cC2, cC2]

/-- `demodValsC2` shifted by the best lag `-1` with zero fill. -/
def alignedValsC2 : List ℝ :=
  [0, cC2, cC2, cC2, cC2, cC2, cC2, cC2, cC2, cC2]

end

/-! ### Structure lemmas for the accumulation loops -/

theorem foldl_add_eq (l : List ℝ) (c : ℝ) :
    l.foldl (fun acc v => acc + v) c = c + l.sum := by
  induction l generalizing c with
  | nil => simp
  | cons x xs ih => simp [ih, add_assoc]

theorem sumSq_eq (l : List ℝ) : sumSq l = (l.map (fun v => v * v)).sum := by
  have h : ∀ (l : List ℝ) (c : ℝ),
      l.foldl (fun acc v => acc + v * v) c = c + (l.map (fun v => v * v)).sum := by
    intro l
    induction l with
    | nil => simp
    | cons x xs ih => intro c; simp [ih, add_assoc]
  simpa using h l 0

theorem foldl_dev_eq (m : ℝ) (l : List ℝ) (c : ℝ) :
    l.foldl (fun acc v => acc + (v - m) * (v - m)) c =
      c + (l.map (fun v => (v - m) * (v - m))).sum := by
  induction l generalizing c with
  | nil => simp
  | cons x xs ih => simp [ih, add_assoc]

theorem calculateMean_eq (l : List ℝ) :
    calculateMean l = l.sum / (l.length : ℝ) := by
  simp [calculateMean, foldl_add_eq]

theorem calculateStdDev_eq (l : List ℝ) (m : ℝ) :
    calculateStdDev l m =
      Real.sqrt ((l.map (fun v => (v - m) * (v - m))).sum / ((l.length : ℝ) - 1)) := by
  simp [calculateStdDev, foldl_dev_eq]

/-! ### Lemmas about the AWGN sample loop -/

theorem awgnLoop_eq (sigma : ℝ) (vs : List ℝ) (g : ℕ → ℝ) (p : ℕ) :
    awgnLoop sigma vs ⟨g, p⟩ =
      ((List.range vs.length).map (fun i => vs.getD i 0 + g (p + i) * sigma),
        ⟨g, p + vs.length⟩) := by
  induction vs generalizing p with
  | nil => simp [awgnLoop]
  | cons v rest ih =>
    simp only [awgnLoop, RNG.normFloat64, ih (p + 1), List.length_cons,
      List.range_succ_eq_map, List.map_cons, List.map_map, Function.comp,
      List.getD_cons_zero, List.getD_cons_succ, Nat.add_zero]
    refine Prod.ext ?_ ?_
    · simp only [Prod.fst]
      congr 1
      refine List.map_congr_left (fun i _ => ?_)
      have h1 : p + 1 + i = p + (i + 1) := by omega
      rw [h1]
      simp
    · simp only [Prod.snd]
      have h2 : p + 1 + rest.length = p + (rest.length + 1) := by omega
      rw [h2]

theorem awgnLoop_zero (sigma : ℝ) (vs : List ℝ) (g : ℕ → ℝ) (p : ℕ)
    (h : ∀ k, k < vs.length → g (p + k) = 0) :
    awgnLoop sigma vs ⟨g, p⟩ = (vs, ⟨g, p + vs.length⟩) := by
  rw [awgnLoop_eq]
  refine Prod.ext ?_ rfl
  simp only [Prod.fst]
  have : ∀ i ∈ List.range vs.length, vs.getD i 0 + g (p + i) * sigma = vs.getD i 0 := by
    intro i hi
    rw [h i (List.mem_range.mp hi)]
    ring
  rw [List.map_congr_left this]
  apply List.ext_getElem
  · simp
  · intro i h1 h2
    simp [List.getD_eq_getElem?_getD, List.getElem?_eq_getElem, h2]

theorem addAWGN_eq_addAWGNWithRNG (signal : Signal) (snrDB : ℝ) (rng : RNG) :
    addAWGN signal snrDB rng = addAWGNWithRNG signal snrDB rng := rfl

/-! ### Lemmas about the moving-average filter -/

theorem movingAvg_length (l : List ℝ) : (movingAvg l).length = l.length := by
  simp [movingAvg]

theorem movingAvg_nonneg (l : List ℝ) (h : ∀ x ∈ l, 0 ≤ x) :
    ∀ y ∈ movingAvg l, 0 ≤ y := by
  intro y hy
  simp only [movingAvg, List.mem_map] at hy
  obtain ⟨i, _, rfl⟩ := hy
  unfold movingAvgAt
  apply div_nonneg
  · rw [show ((((l.drop (i - 10)).take (min (l.length - 1) (i + 10) + 1 - (i - 10))).foldl
        (fun acc v => acc + v) 0)) =
      (((l.drop (i - 10)).take (min (l.length - 1) (i + 10) + 1 - (i - 10))).sum) by
      rw [foldl_add_eq]; ring]
    apply List.sum_nonneg
    intro x hx
    exact h x (List.drop_subset _ _ (List.take_subset _ _ hx))
  · exact Nat.cast_nonneg _

/-! ### Closed form of the SNR accumulation loop -/

theorem snrSums_eq (o n : List ℝ) :
    snrSums o n =
      (((List.range o.length).map (fun i => o.getD i 0 * o.getD i 0)).sum,
        ((List.range o.length).map
          (fun i => (n.getD i 0 - o.getD i 0) * (n.getD i 0 - o.getD i 0))).sum) := by
  have h : ∀ (is : List ℕ) (a b : ℝ),
      is.foldl
        (fun acc i =>
          (acc.1 + o.getD i 0 * o.getD i 0,
            acc.2 + (n.getD i 0 - o.getD i 0) * (n.getD i 0 - o.getD i 0)))
        (a, b) =
      (a + (is.map (fun i => o.getD i 0 * o.getD i 0)).sum,
        b + (is.map
          (fun i => (n.getD i 0 - o.getD i 0) * (n.getD i 0 - o.getD i 0))).sum) := by
    intro is
    induction is with
    | nil => simp
    | cons j js ih =>
      intro a b
      rw [List.foldl_cons, ih]
      refine Prod.ext ?_ ?_ <;> simp <;> ring
  simpa [snrSums] using h (List.range o.length) 0 0

theorem range_map_getD (f : ℝ → ℝ) (l : List ℝ) :
    (List.range l.length).map (fun i => f (l.getD i 0)) = l.map f := by
  induction l with
  | nil => simp
  | cons x xs ih =>
    simp only [List.length_cons, List.range_succ_eq_map, List.map_cons,
      List.map_map, Function.comp, List.getD_cons_zero, List.getD_cons_succ]
    exact congrArg _ ih

theorem range_map_getD2 (f : ℝ → ℝ → ℝ) :
    ∀ (o n : List ℝ), o.length = n.length →
      (List.range o.length).map (fun i => f (o.getD i 0) (n.getD i 0)) =
        List.zipWith f o n := by
  intro o
  induction o with
  | nil => intro n _; simp
  | cons x xs ih =>
    intro n hlen
    match n with
    | [] => simp at hlen
    | y :: ys =>
      simp only [List.length_cons, List.range_succ_eq_map, List.map_cons,
        List.map_map, Function.comp, List.getD_cons_zero, List.getD_cons_succ,
        List.zipWith_cons_cons]
      exact congrArg _ (ih ys (by simpa using hlen))

/-! ### Lemmas about the trial loop and the aggregator -/

theorem runTrialsAux_length (modType : ModulationType) (params : SignalParams)
    (targetSNR : ℝ) :
    ∀ (k : ℕ) (rng : RNG) (ms : List ℝ) (rng2 : RNG),
      runTrialsAux modType params targetSNR k rng = some (ms, rng2) →
        ms.length = k := by
  intro k
  induction k with
  | zero =>
    intro rng ms rng2 h
    simp [runTrialsAux] at h
    simp [h.1.symm]
  | succ j ih =>
    intro rng ms rng2 h
    simp only [runTrialsAux, Option.bind_eq_some] at h
    obtain ⟨tr, _, rest, hrest, heq⟩ := h
    have := ih tr.2 rest.1 rest.2 hrest
    cases heq
    simp [this]

theorem runTrialsAux_trials (modType : ModulationType) (params : SignalParams)
    (targetSNR : ℝ) :
    ∀ (k : ℕ) (rng : RNG) (ms : List ℝ) (rng2 : RNG),
      runTrialsAux modType params targetSNR k rng = some (ms, rng2) →
        ∀ j, j < k → ∃ r r2 : RNG,
          runSingleTrial modType params targetSNR r = some (ms.getD j 0, r2) := by
  intro k
  induction k with
  | zero => intro rng ms rng2 _ j hj; omega
  | succ i ih =>
    intro rng ms rng2 h j hj
    simp only [runTrialsAux, Option.bind_eq_some] at h
    obtain ⟨tr, htr, rest, hrest, heq⟩ := h
    cases heq
    match j with
    | 0 => exact ⟨rng, tr.2, by simpa using htr⟩
    | Nat.succ j2 =>
      have := ih tr.2 rest.1 rest.2 hrest j2 (by omega)
      simpa using this

theorem runSingleSNRSimulation_eq (modType : ModulationType)
    (params : SignalParams) (targetSNR : ℝ) (k : ℕ) (rng : RNG) :
    runSingleSNRSimulation modType params targetSNR k rng =
      (runTrialsAux modType params targetSNR k rng).bind (fun res =>
        some (⟨targetSNR, calculateMean res.1,
          calculateStdDev res.1 (calculateMean res.1), modType, k⟩, res.2)) := rfl

/-! ### Lemmas about the parallel write records -/

theorem workerRun_fst (amParams fmParams : SignalParams) (snrRange : List ℝ)
    (numIterations : ℕ) :
    ∀ (jobs : List ℕ) (rng : RNG) (amW fmW : List (ℕ × PerformanceResult))
      (rng2 : RNG),
      workerRun amParams fmParams snrRange numIterations jobs rng =
          some (amW, fmW, rng2) →
        amW.map Prod.fst = jobs ∧ fmW.map Prod.fst = jobs := by
  intro jobs
  induction jobs with
  | nil =>
    intro rng amW fmW rng2 h
    simp [workerRun] at h
    obtain ⟨rfl, rfl, -⟩ := h
    simp
  | cons j js ih =>
    intro rng amW fmW rng2 h
    simp only [workerRun, Option.bind_eq_some] at h
    obtain ⟨am, _, fm, _, rest, hrest, heq⟩ := h
    have := ih fm.2 rest.1 rest.2.1 rest.2.2 hrest
    cases heq
    simp [this.1, this.2]

theorem collectWorkers_fst (norm : ℤ → ℕ → ℝ) (seed : ℤ)
    (amParams fmParams : SignalParams) (snrRange : List ℝ) (numIterations : ℕ) :
    ∀ (schedule : List (List ℕ)) (w : ℤ)
      (amW fmW : List (ℕ × PerformanceResult)),
      collectWorkers norm seed amParams fmParams snrRange numIterations
          schedule w = some (amW, fmW) →
        amW.map Prod.fst = schedule.flatten ∧
          fmW.map Prod.fst = schedule.flatten := by
  intro schedule
  induction schedule with
  | nil =>
    intro w amW fmW h
    simp [collectWorkers] at h
    obtain ⟨rfl, rfl⟩ := h
    simp
  | cons jobs rest ih =>
    intro w amW fmW h
    simp only [collectWorkers, Option.bind_eq_some] at h
    obtain ⟨res, hres, acc, hacc, heq⟩ := h
    have h1 := workerRun_fst amParams fmParams snrRange numIterations jobs
      ⟨norm (seed + w), 0⟩ res.1 res.2.1 res.2.2 hres
    have h2 := ih (w + 1) acc.1 acc.2 hacc
    cases heq
    simp [h1.1, h1.2, h2.1, h2.2]

theorem applyWrites_perm (ws1 ws2 : List (ℕ × PerformanceResult))
    (hperm : ws1.Perm ws2) (hnodup : (ws1.map Prod.fst).Nodup)
    (init : List PerformanceResult) :
    applyWrites ws1 init = applyWrites ws2 init := by
  unfold applyWrites
  refine hperm.foldl_eq' ?_ init
  intro x hx y hy z
  by_cases hxy : x = y
  · rw [hxy]
  · have hne : x.1 ≠ y.1 := by
      intro hfst
      exact hxy (List.inj_on_of_nodup_map hnodup hx hy hfst)
    exact List.set_comm _ _ _ hne

/-! ### Progress lemmas: with a nonnegative sample count no component panics -/

theorem numSamplesZ_nonneg (p : SignalParams)
    (h : 0 ≤ p.samplingRate * p.duration) : 0 ≤ numSamplesZ p := by
  unfold numSamplesZ goTrunc
  rw [if_pos h]
  exact Int.le_floor.mpr (by exact_mod_cast h)

theorem generateTimeVector_some (p : SignalParams)
    (h : 0 ≤ p.samplingRate * p.duration) :
    generateTimeVector p =
      some ((List.range (numSamplesZ p).toNat).map
        (fun i : ℕ => (i : ℝ) * (1 / p.samplingRate))) := by
  unfold generateTimeVector
  rw [if_neg (by have := numSamplesZ_nonneg p h; omega)]

theorem generateBaseband_isSome (p : SignalParams)
    (h : 0 ≤ p.samplingRate * p.duration) :
    ∃ s, generateBaseband p = some s := by
  rw [generateBaseband, generateTimeVector_some p h]
  exact ⟨_, rfl⟩

theorem generateCarrier_isSome (p : SignalParams)
    (h : 0 ≤ p.samplingRate * p.duration) :
    ∃ s, generateCarrier p = some s := by
  rw [generateCarrier, generateTimeVector_some p h]
  exact ⟨_, rfl⟩

theorem generateAM_isSome (p : SignalParams)
    (h : 0 ≤ p.samplingRate * p.duration) :
    ∃ s, generateAM p = some s := by
  rw [generateAM, generateTimeVector_some p h]
  exact ⟨_, rfl⟩

theorem generateFM_isSome (p : SignalParams)
    (h : 0 ≤ p.samplingRate * p.duration) :
    ∃ s, generateFM p = some s := by
  rw [generateFM, generateTimeVector_some p h]
  exact ⟨_, rfl⟩

theorem runSingleTrial_isSome (modType : ModulationType) (p : SignalParams)
    (targetSNR : ℝ) (rng : RNG) (h : 0 ≤ p.samplingRate * p.duration) :
    ∃ x, runSingleTrial modType p targetSNR rng = some x := by
  obtain ⟨b, hb⟩ := generateBaseband_isSome p h
  cases modType with
  | AM =>
    obtain ⟨m, hm⟩ := generateAM_isSome p h
    rw [← Option.isSome_iff_exists]
    simp [runSingleTrial, hb, hm]
  | FM =>
    obtain ⟨m, hm⟩ := generateFM_isSome p h
    rw [← Option.isSome_iff_exists]
    simp [runSingleTrial, hb, hm]

theorem runTrialsAux_isSome (modType : ModulationType) (p : SignalParams)
    (targetSNR : ℝ) (h : 0 ≤ p.samplingRate * p.duration) :
    ∀ (k : ℕ) (rng : RNG), ∃ x, runTrialsAux modType p targetSNR k rng = some x := by
  intro k
  induction k with
  | zero => intro rng; exact ⟨_, rfl⟩
  | succ j ih =>
    intro rng
    obtain ⟨tr, htr⟩ := runSingleTrial_isSome modType p targetSNR rng h
    obtain ⟨rest, hrest⟩ := ih tr.2
    rw [← Option.isSome_iff_exists]
    simp [runTrialsAux, htr, hrest]

theorem runSingleSNRSimulation_isSome (modType : ModulationType)
    (p : SignalParams) (targetSNR : ℝ) (k : ℕ) (rng : RNG)
    (h : 0 ≤ p.samplingRate * p.duration) :
    ∃ x, runSingleSNRSimulation modType p targetSNR k rng = some x := by
  obtain ⟨res, hres⟩ := runTrialsAux_isSome modType p targetSNR h k rng
  rw [← Option.isSome_iff_exists]
  simp [runSingleSNRSimulation, hres]

theorem workerRun_isSome (amParams fmParams : SignalParams) (snrRange : List ℝ)
    (numIterations : ℕ) (ha : 0 ≤ amParams.samplingRate * amParams.duration)
    (hf : 0 ≤ fmParams.samplingRate * fmParams.duration) :
    ∀ (jobs : List ℕ) (rng : RNG),
      ∃ x, workerRun amParams fmParams snrRange numIterations jobs rng = some x := by
  intro jobs
  induction jobs with
  | nil => intro rng; exact ⟨_, rfl⟩
  | cons j js ih =>
    intro rng
    obtain ⟨am, ham⟩ := runSingleSNRSimulation_isSome ModulationType.AM amParams
      (snrRange.getD j 0) numIterations rng ha
    obtain ⟨fm, hfm⟩ := runSingleSNRSimulation_isSome ModulationType.FM fmParams
      (snrRange.getD j 0) numIterations am.2 hf
    obtain ⟨rest, hrest⟩ := ih fm.2
    rw [← Option.isSome_iff_exists]
    simp only [workerRun, ham, hfm, hrest, Option.some_bind]
    rfl

theorem collectWorkers_isSome (norm : ℤ → ℕ → ℝ) (seed : ℤ)
    (amParams fmParams : SignalParams) (snrRange : List ℝ) (numIterations : ℕ)
    (ha : 0 ≤ amParams.samplingRate * amParams.duration)
    (hf : 0 ≤ fmParams.samplingRate * fmParams.duration) :
    ∀ (schedule : List (List ℕ)) (w : ℤ),
      ∃ x, collectWorkers norm seed amParams fmParams snrRange numIterations
        schedule w = some x := by
  intro schedule
  induction schedule with
  | nil => intro w; exact ⟨_, rfl⟩
  | cons jobs rest ih =>
    intro w
    obtain ⟨res, hres⟩ := workerRun_isSome amParams fmParams snrRange
      numIterations ha hf jobs ⟨norm (seed + w), 0⟩
    obtain ⟨acc, hacc⟩ := ih (w + 1)
    rw [← Option.isSome_iff_exists]
    simp [collectWorkers, hres, hacc]

theorem simulateSNRPerformance_isSome (modType : ModulationType)
    (p : SignalParams) (h : 0 ≤ p.samplingRate * p.duration) :
    ∀ (snrRange : List ℝ) (numTrials : ℕ) (rng : RNG),
      ∃ x, simulateSNRPerformance modType p snrRange numTrials rng = some x := by
  intro snrRange
  induction snrRange with
  | nil => intro numTrials rng; exact ⟨_, rfl⟩
  | cons snr rest ih =>
    intro numTrials rng
    obtain ⟨r, hr⟩ := runSingleSNRSimulation_isSome modType p snr numTrials rng h
    obtain ⟨rs, hrs⟩ := ih numTrials r.2
    rw [← Option.isSome_iff_exists]
    simp [simulateSNRPerformance, hr, hrs]

theorem workerRunSingle_isSome (modType : ModulationType) (p : SignalParams)
    (snrRange : List ℝ) (numTrials : ℕ)
    (h : 0 ≤ p.samplingRate * p.duration) :
    ∀ (jobs : List ℕ) (rng : RNG),
      ∃ x, workerRunSingle modType p snrRange numTrials jobs rng = some x := by
  intro jobs
  induction jobs with
  | nil => intro rng; exact ⟨_, rfl⟩
  | cons j js ih =>
    intro rng
    obtain ⟨r, hr⟩ := runSingleSNRSimulation_isSome modType p
      (snrRange.getD j 0) numTrials rng h
    obtain ⟨rest, hrest⟩ := ih r.2
    rw [← Option.isSome_iff_exists]
    simp only [workerRunSingle, hr, hrest, Option.some_bind]
    rfl

theorem collectWorkersSingle_isSome (wstreams : ℕ → ℕ → ℝ)
    (modType : ModulationType) (p : SignalParams) (snrRange : List ℝ)
    (numTrials : ℕ) (h : 0 ≤ p.samplingRate * p.duration) :
    ∀ (schedule : List (List ℕ)) (w : ℕ),
      ∃ x, collectWorkersSingle wstreams modType p snrRange numTrials
        schedule w = some x := by
  intro schedule
  induction schedule with
  | nil => intro w; exact ⟨_, rfl⟩
  | cons jobs rest ih =>
    intro w
    obtain ⟨res, hres⟩ := workerRunSingle_isSome modType p snrRange numTrials h
      jobs ⟨wstreams w, 0⟩
    obtain ⟨acc, hacc⟩ := ih (w + 1)
    rw [← Option.isSome_iff_exists]
    simp [collectWorkersSingle, hres, hacc]

/-! ### Exact values of the sine at the sample angles used by the witnesses -/

theorem sin_pi_half_add_pi : Real.sin (Real.pi / 2 + Real.pi) = -1 := by
  rw [Real.sin_add_pi, Real.sin_pi_div_two]

theorem sin_pi_half_add_two_pi : Real.sin (Real.pi / 2 + 2 * Real.pi) = 1 := by
  rw [Real.sin_add_two_pi, Real.sin_pi_div_two]

theorem sin_pi_half_add_three_pi : Real.sin (Real.pi / 2 + 3 * Real.pi) = -1 := by
  rw [show Real.pi / 2 + 3 * Real.pi = Real.pi / 2 + Real.pi + 2 * Real.pi by ring,
    Real.sin_add_two_pi, sin_pi_half_add_pi]

theorem sin_pi_half_add_four_pi : Real.sin (Real.pi / 2 + 4 * Real.pi) = 1 := by
  rw [show Real.pi / 2 + 4 * Real.pi = Real.pi / 2 + 2 * Real.pi + 2 * Real.pi by ring,
    Real.sin_add_two_pi, sin_pi_half_add_two_pi]

theorem sin_three_pi : Real.sin (3 * Real.pi) = 0 := by
  rw [show (3 : ℝ) * Real.pi = Real.pi + 2 * Real.pi by ring,
    Real.sin_add_two_pi, Real.sin_pi]

theorem sin_four_pi : Real.sin (4 * Real.pi) = 0 := by
  rw [show (4 : ℝ) * Real.pi = 2 * Real.pi + 2 * Real.pi by ring,
    Real.sin_add_two_pi, Real.sin_two_pi]

/-! ### Evaluation of the 4-sample pipelines -/

theorem generateTimeVector_eval (p : SignalParams) (m : ℕ)
    (h : numSamplesZ p = m) :
    generateTimeVector p =
      some ((List.range m).map (fun i : ℕ => (i : ℝ) * (1 / p.samplingRate))) := by
  unfold generateTimeVector
  rw [h, if_neg (by omega)]
  norm_num

theorem numSamplesZ_amParamsC1 : numSamplesZ amParamsC1 = 4 := by
  unfold numSamplesZ goTrunc amParamsC1
  rw [if_pos (by norm_num)]
  rw [show ((4 : ℝ) * 1) = ((4 : ℤ) : ℝ) by norm_num, Int.floor_intCast]

theorem timeVecC1 : generateTimeVector amParamsC1 = some [0, 1 / 4, 1 / 2, 3 / 4] := by
  rw [generateTimeVector_eval amParamsC1 4 numSamplesZ_amParamsC1]
  rw [show List.range 4 = [0, 1, 2, 3] from rfl]
  norm_num [amParamsC1]

theorem basebandC1 :
    generateBaseband amParamsC1 = some ⟨[0, 1 / 4, 1 / 2, 3 / 4], [0, 1, 0, -1]⟩ := by
  rw [generateBaseband, timeVecC1]
  show some _ = _
  refine congrArg some (congrArg (Signal.mk _) ?_)
  show [_, _, _, _] = _
  rw [show amParamsC1.messageAmp = 1 from rfl, show amParamsC1.messageFreq = 1 from rfl]
  dsimp only
  rw [show (2 * Real.pi * 1 * (1 / 4 : ℝ)) = Real.pi / 2 by ring,
    show (2 * Real.pi * 1 * (1 / 2 : ℝ)) = Real.pi by ring,
    show (2 * Real.pi * 1 * (3 / 4 : ℝ)) = Real.pi / 2 + Real.pi by ring,
    Real.sin_pi_div_two, Real.sin_pi, sin_pi_half_add_pi]
  norm_num

theorem amSignalC1 :
    generateAM amParamsC1 = some ⟨[0, 1 / 4, 1 / 2, 3 / 4], amCleanC1⟩ := by
  rw [generateAM, timeVecC1]
  refine congrArg some (congrArg (Signal.mk _) ?_)
  show [_, _, _, _] = _
  rw [show amParamsC1.messageAmp = 1 from rfl, show amParamsC1.messageFreq = 1 from rfl,
    show amParamsC1.carrierAmp = 1 from rfl, show amParamsC1.carrierFreq = 1 from rfl,
    show amParamsC1.modulationIdx = (1 / 2 : ℝ) from rfl]
  dsimp only
  rw [show (2 * Real.pi * 1 * (1 / 4 : ℝ)) = Real.pi / 2 by ring,
    show (2 * Real.pi * 1 * (1 / 2 : ℝ)) = Real.pi by ring,
    show (2 * Real.pi * 1 * (3 / 4 : ℝ)) = Real.pi / 2 + Real.pi by ring,
    Real.sin_pi_div_two, Real.sin_pi, sin_pi_half_add_pi]
  norm_num [amCleanC1]

theorem numSamplesZ_fmParamsC1 : numSamplesZ fmParamsC1 = 4 := by
  unfold numSamplesZ goTrunc fmParamsC1
  rw [if_pos (by norm_num)]
  rw [show ((4 : ℝ) * 1) = ((4 : ℤ) : ℝ) by norm_num, Int.floor_intCast]

theorem timeVecFMC1 :
    generateTimeVector fmParamsC1 = some [0, 1 / 4, 1 / 2, 3 / 4] := by
  rw [generateTimeVector_eval fmParamsC1 4 numSamplesZ_fmParamsC1]
  rw [show List.range 4 = [0, 1, 2, 3] from rfl]
  norm_num [fmParamsC1]

theorem fmSignalC1 :
    generateFM fmParamsC1 = some ⟨[0, 1 / 4, 1 / 2, 3 / 4], [0, 1, 0, 1]⟩ := by
  rw [generateFM, timeVecFMC1]
  refine congrArg some (congrArg (Signal.mk _) ?_)
  show _ :: generateFMAux fmParamsC1 _ _ _ _ = _
  simp only [generateFMAux]
  rw [show fmParamsC1.messageAmp = 1 from rfl, show fmParamsC1.messageFreq = 1 from rfl,
    show fmParamsC1.carrierAmp = 1 from rfl, show fmParamsC1.carrierFreq = 0 from rfl,
    show fmParamsC1.modulationIdx = 4 * Real.pi from rfl]
  rw [show (2 * Real.pi * 1 * (0 : ℝ)) = 0 by ring,
    show (2 * Real.pi * 1 * (1 / 4 : ℝ)) = Real.pi / 2 by ring,
    show (2 * Real.pi * 1 * (1 / 2 : ℝ)) = Real.pi by ring,
    show (2 * Real.pi * 1 * (3 / 4 : ℝ)) = Real.pi / 2 + Real.pi by ring,
    Real.sin_zero, Real.sin_pi_div_two, Real.sin_pi, sin_pi_half_add_pi]
  rw [show fmParamsC1.samplingRate = (4 : ℝ) from rfl]
  norm_num
  rw [show (4 * Real.pi * (1 / 8 : ℝ)) = Real.pi / 2 by ring,
    show (4 * Real.pi * (1 / 4 : ℝ)) = Real.pi by ring,
    Real.sin_pi_div_two, Real.sin_pi]
  norm_num

/-! ### Noise, demodulation and score evaluations on the 4-sample data -/

theorem sumSq_amCleanC1 : sumSq amCleanC1 = 5 / 2 := by
  norm_num [sumSq, amCleanC1]

theorem sqrt58_pos : (0 : ℝ) < Real.sqrt (5 / 8) :=
  Real.sqrt_pos.mpr (by norm_num)

theorem noisyAMzero (T : List ℝ) (g : ℕ → ℝ) (p : ℕ)
    (h : ∀ k, k < 4 → g (p + k) = 0) :
    addAWGNWithRNG ⟨T, amCleanC1⟩ 0 ⟨g, p⟩ = (⟨T, amCleanC1⟩, ⟨g, p + 4⟩) := by
  unfold addAWGNWithRNG
  dsimp only
  rw [awgnLoop_zero _ amCleanC1 g p (by simpa [amCleanC1] using h)]
  simp [amCleanC1]

theorem noisyFMzero (T : List ℝ) (g : ℕ → ℝ) (p : ℕ)
    (h : ∀ k, k < 4 → g (p + k) = 0) :
    addAWGNWithRNG ⟨T, [0, 1, 0, 1]⟩ 0 ⟨g, p⟩ =
      (⟨T, [0, 1, 0, 1]⟩, ⟨g, p + 4⟩) := by
  unfold addAWGNWithRNG
  dsimp only
  rw [awgnLoop_zero _ [0, 1, 0, 1] g p (by simpa using h)]
  simp

theorem noisyAMstreamB (T : List ℝ) :
    addAWGNWithRNG ⟨T, amCleanC1⟩ 0 ⟨normC1 8, 0⟩ =
      (⟨T, [2, 2, 2, 2]⟩, ⟨normC1 8, 4⟩) := by
  have hinv : (Real.sqrt (5 / 8))⁻¹ * Real.sqrt (5 / 8) = 1 :=
    inv_mul_cancel₀ (ne_of_gt sqrt58_pos)
  unfold addAWGNWithRNG
  dsimp only
  rw [awgnLoop_eq _ amCleanC1 (normC1 8) 0]
  have hσ : Real.sqrt (sumSq amCleanC1 / ((amCleanC1.length : ℕ) : ℝ) /
      (10 : ℝ) ^ ((0 : ℝ) / 10)) = Real.sqrt (5 / 8) := by
    rw [sumSq_amCleanC1, show ((0 : ℝ) / 10) = 0 by norm_num, Real.rpow_zero]
    norm_num [amCleanC1]
  rw [show List.range amCleanC1.length = [0, 1, 2, 3] from rfl]
  refine congrArg₂ Prod.mk (congrArg (Signal.mk T) ?_) (by simp [amCleanC1])
  rw [hσ]
  simp only [List.map_cons, List.map_nil]
  have comp : ∀ k : ℕ, k < 4 →
      amCleanC1.getD k 0 + normC1 8 (0 + k) * Real.sqrt (5 / 8) = 2 := by
    intro k hk
    rw [show normC1 8 (0 + k) =
        (2 - amCleanC1.getD (0 + k) 0) * (Real.sqrt (5 / 8))⁻¹ by
      unfold normC1
      rw [if_pos ⟨rfl, by omega⟩]]
    rw [Nat.zero_add, mul_assoc, hinv, mul_one]
    ring
  rw [comp 0 (by norm_num), comp 1 (by norm_num), comp 2 (by norm_num),
    comp 3 (by norm_num)]

theorem movingAvg_four (a b c d : ℝ) :
    movingAvg [a, b, c, d] =
      [(a + b + c + d) / 4, (a + b + c + d) / 4,
        (a + b + c + d) / 4, (a + b + c + d) / 4] := by
  unfold movingAvg
  rw [show List.range ([a, b, c, d].length) = [0, 1, 2, 3] from rfl]
  simp only [List.map_cons, List.map_nil]
  unfold movingAvgAt
  norm_num

theorem demodAMcleanC1 (T : List ℝ) :
    demodulateAM ⟨T, amCleanC1⟩ = ⟨T, [1 / 2, 1 / 2, 1 / 2, 1 / 2]⟩ := by
  unfold demodulateAM
  rw [show (⟨T, amCleanC1⟩ : Signal).values = amCleanC1 from rfl]
  rw [show amCleanC1.map (fun v => |v|) = [0, 3 / 2, 0, 1 / 2] by
    norm_num [amCleanC1, abs_of_nonneg, abs_of_nonpos]]
  rw [movingAvg_four]
  norm_num

theorem demodAMtwos (T : List ℝ) :
    demodulateAM ⟨T, [2, 2, 2, 2]⟩ = ⟨T, [2, 2, 2, 2]⟩ := by
  unfold demodulateAM
  rw [show (⟨T, [2, 2, 2, 2]⟩ : Signal).values = [2, 2, 2, 2] from rfl]
  rw [show ([2, 2, 2, 2] : List ℝ).map (fun v => |v|) = [2, 2, 2, 2] by norm_num]
  rw [movingAvg_four]
  norm_num

theorem demodFMC1 (T : List ℝ) :
    demodulateFM ⟨T, [0, 1, 0, 1]⟩ fmParamsC1 = ⟨T, [0, 0, 0, 0]⟩ := by
  unfold demodulateFM
  rw [show (⟨T, [0, 1, 0, 1]⟩ : Signal).values = [0, 1, 0, 1] from rfl]
  rw [show quadOf [0, 1, 0, 1] = [0, 0, 1, 0] by norm_num [quadOf]]
  rw [show List.range ([0, 1, 0, 1] : List ℝ).length = [0, 1, 2, 3] from rfl]
  simp only [List.map_cons, List.map_nil]
  rw [show fmParamsC1.modulationIdx = 4 * Real.pi from rfl,
    show (1 / fmParamsC1.samplingRate : ℝ) = 1 / 4 from rfl]
  rw [show fmRawAt [0, 1, 0, 1] [0, 0, 1, 0] (1 / 4) (4 * Real.pi) 0 = 0 from rfl]
  rw [show fmRawAt [0, 1, 0, 1] [0, 0, 1, 0] (1 / 4) (4 * Real.pi) 1 = 0 by
    norm_num [fmRawAt]]
  rw [show fmRawAt [0, 1, 0, 1] [0, 0, 1, 0] (1 / 4) (4 * Real.pi) 2 =
      1 / (2 * Real.pi * (1 / 4)) / (4 * Real.pi) by norm_num [fmRawAt]]
  rw [show fmRawAt [0, 1, 0, 1] [0, 0, 1, 0] (1 / 4) (4 * Real.pi) 3 =
      -1 / (2 * Real.pi * (1 / 4)) / (4 * Real.pi) by norm_num [fmRawAt]]
  rw [movingAvg_four]
  norm_num
  have hpi := Real.pi_ne_zero
  field_simp
  ring

theorem scoreAMzeroC1 (T1 T2 : List ℝ) :
    calculateSNRfin ⟨T1, [0, 1, 0, -1]⟩ ⟨T2, [1 / 2, 1 / 2, 1 / 2, 1 / 2]⟩ =
      10 * Real.logb 10 (2 / 3) := by
  unfold calculateSNRfin
  rw [snrSums_eq]
  norm_num [show List.range 4 = [0, 1, 2, 3] from rfl]

theorem scoreAMstreamBC1 (T1 T2 : List ℝ) :
    calculateSNRfin ⟨T1, [0, 1, 0, -1]⟩ ⟨T2, [2, 2, 2, 2]⟩ =
      10 * Real.logb 10 (1 / 9) := by
  unfold calculateSNRfin
  rw [snrSums_eq]
  norm_num [show List.range 4 = [0, 1, 2, 3] from rfl]

theorem scoreFMzeroC1 (T1 T2 : List ℝ) :
    calculateSNRfin ⟨T1, [0, 1, 0, -1]⟩ ⟨T2, [0, 0, 0, 0]⟩ = 0 := by
  unfold calculateSNRfin
  rw [snrSums_eq]
  norm_num [show List.range 4 = [0, 1, 2, 3] from rfl]

/-! ### Single-trial and aggregator evaluations on the 4-sample data -/

theorem calculateMean_single (x : ℝ) : calculateMean [x] = x := by
  simp [calculateMean_eq]

theorem calculateStdDev_single (x : ℝ) : calculateStdDev [x] x = 0 := by
  simp [calculateStdDev]

theorem basebandFMC1 :
    generateBaseband fmParamsC1 = some ⟨[0, 1 / 4, 1 / 2, 3 / 4], [0, 1, 0, -1]⟩ := by
  rw [generateBaseband, timeVecFMC1]
  refine congrArg some (congrArg (Signal.mk _) ?_)
  show [_, _, _, _] = _
  rw [show fmParamsC1.messageAmp = 1 from rfl, show fmParamsC1.messageFreq = 1 from rfl]
  dsimp only
  rw [show (2 * Real.pi * 1 * (1 / 4 : ℝ)) = Real.pi / 2 by ring,
    show (2 * Real.pi * 1 * (1 / 2 : ℝ)) = Real.pi by ring,
    show (2 * Real.pi * 1 * (3 / 4 : ℝ)) = Real.pi / 2 + Real.pi by ring,
    Real.sin_pi_div_two, Real.sin_pi, sin_pi_half_add_pi]
  norm_num

theorem trialAMzeroC1 (g : ℕ → ℝ) (p : ℕ) (h : ∀ k, k < 4 → g (p + k) = 0) :
    runSingleTrial ModulationType.AM amParamsC1 0 ⟨g, p⟩ =
      some (10 * Real.logb 10 (2 / 3), ⟨g, p + 4⟩) := by
  unfold runSingleTrial
  rw [basebandC1, amSignalC1]
  simp only [Option.some_bind]
  try dsimp only
  rw [noisyAMzero _ g p h]
  try dsimp only
  rw [demodAMcleanC1]
  unfold computeOutputSNR
  rw [scoreAMzeroC1]

theorem trialAMstreamBC1 :
    runSingleTrial ModulationType.AM amParamsC1 0 ⟨normC1 8, 0⟩ =
      some (10 * Real.logb 10 (1 / 9), ⟨normC1 8, 4⟩) := by
  unfold runSingleTrial
  rw [basebandC1, amSignalC1]
  simp only [Option.some_bind]
  try dsimp only
  rw [noisyAMstreamB]
  try dsimp only
  rw [demodAMtwos]
  unfold computeOutputSNR
  rw [scoreAMstreamBC1]

theorem trialFMzeroC1 (g : ℕ → ℝ) (p : ℕ) (h : ∀ k, k < 4 → g (p + k) = 0) :
    runSingleTrial ModulationType.FM fmParamsC1 0 ⟨g, p⟩ =
      some (0, ⟨g, p + 4⟩) := by
  unfold runSingleTrial
  rw [basebandFMC1, fmSignalC1]
  simp only [Option.some_bind]
  try dsimp only
  rw [noisyFMzero _ g p h]
  try dsimp only
  rw [demodFMC1]
  unfold computeOutputSNR
  rw [scoreFMzeroC1]

theorem snrSimAMzeroC1 (g : ℕ → ℝ) (p : ℕ) (h : ∀ k, k < 4 → g (p + k) = 0) :
    runSingleSNRSimulation ModulationType.AM amParamsC1 0 1 ⟨g, p⟩ =
      some (⟨0, 10 * Real.logb 10 (2 / 3), 0, ModulationType.AM, 1⟩, ⟨g, p + 4⟩) := by
  unfold runSingleSNRSimulation runTrialsAux
  rw [trialAMzeroC1 g p h]
  simp only [Option.some_bind, runTrialsAux]
  rw [calculateMean_single, calculateStdDev_single]

theorem snrSimAMstreamBC1 :
    runSingleSNRSimulation ModulationType.AM amParamsC1 0 1 ⟨normC1 8, 0⟩ =
      some (⟨0, 10 * Real.logb 10 (1 / 9), 0, ModulationType.AM, 1⟩,
        ⟨normC1 8, 4⟩) := by
  unfold runSingleSNRSimulation runTrialsAux
  rw [trialAMstreamBC1]
  simp only [Option.some_bind, runTrialsAux]
  rw [calculateMean_single, calculateStdDev_single]

theorem snrSimFMzeroC1 (g : ℕ → ℝ) (p : ℕ) (h : ∀ k, k < 4 → g (p + k) = 0) :
    runSingleSNRSimulation ModulationType.FM fmParamsC1 0 1 ⟨g, p⟩ =
      some (⟨0, 0, 0, ModulationType.FM, 1⟩, ⟨g, p + 4⟩) := by
  unfold runSingleSNRSimulation runTrialsAux
  rw [trialFMzeroC1 g p h]
  simp only [Option.some_bind, runTrialsAux]
  rw [calculateMean_single, calculateStdDev_single]

/-! ### Evaluation of the 10-sample FM pipeline -/

theorem numSamplesZ_fmParamsC2 : numSamplesZ fmParamsC2 = 10 := by
  unfold numSamplesZ goTrunc fmParamsC2
  rw [if_pos (by norm_num)]
  rw [show ((4 : ℝ) * (5 / 2)) = ((10 : ℤ) : ℝ) by norm_num, Int.floor_intCast]

theorem timeVecFMC2 : generateTimeVector fmParamsC2 = some timeValsC2 := by
  rw [generateTimeVector_eval fmParamsC2 10 numSamplesZ_fmParamsC2]
  rw [show List.range 10 = [0, 1, 2, 3, 4, 5, 6, 7, 8, 9] from rfl]
  norm_num [fmParamsC2, timeValsC2]

theorem basebandFMC2 :
    generateBaseband fmParamsC2 = some ⟨timeValsC2, basebandValsC2⟩ := by
  rw [generateBaseband, timeVecFMC2]
  refine congrArg some (congrArg (Signal.mk _) ?_)
  rw [show timeValsC2 =
    ([0, 1 / 4, 1 / 2, 3 / 4, 1, 5 / 4, 3 / 2, 7 / 4, 2, 9 / 4] : List ℝ) from rfl]
  show [_, _, _, _, _, _, _, _, _, _] = _
  rw [show fmParamsC2.messageAmp = 1 from rfl, show fmParamsC2.messageFreq = 1 from rfl]
  dsimp only
  rw [show (2 * Real.pi * 1 * (1 / 4 : ℝ)) = Real.pi / 2 by ring,
    show (2 * Real.pi * 1 * (1 / 2 : ℝ)) = Real.pi by ring,
    show (2 * Real.pi * 1 * (3 / 4 : ℝ)) = Real.pi / 2 + Real.pi by ring,
    show (2 * Real.pi * 1 * (1 : ℝ)) = 2 * Real.pi by ring,
    show (2 * Real.pi * 1 * (5 / 4 : ℝ)) = Real.pi / 2 + 2 * Real.pi by ring,
    show (2 * Real.pi * 1 * (3 / 2 : ℝ)) = 3 * Real.pi by ring,
    show (2 * Real.pi * 1 * (7 / 4 : ℝ)) = Real.pi / 2 + 3 * Real.pi by ring,
    show (2 * Real.pi * 1 * (2 : ℝ)) = 4 * Real.pi by ring,
    show (2 * Real.pi * 1 * (9 / 4 : ℝ)) = Real.pi / 2 + 4 * Real.pi by ring,
    Real.sin_pi_div_two, Real.sin_pi, sin_pi_half_add_pi, Real.sin_two_pi,
    sin_pi_half_add_two_pi, sin_three_pi, sin_pi_half_add_three_pi,
    sin_four_pi, sin_pi_half_add_four_pi]
  norm_num [basebandValsC2]

theorem fmSignalFMC2 :
    generateFM fmParamsC2 = some ⟨timeValsC2, fmCleanC2⟩ := by
  rw [generateFM, timeVecFMC2]
  refine congrArg some (congrArg (Signal.mk _) ?_)
  rw [show timeValsC2 =
    ([0, 1 / 4, 1 / 2, 3 / 4, 1, 5 / 4, 3 / 2, 7 / 4, 2, 9 / 4] : List ℝ) from rfl]
  show _ :: generateFMAux fmParamsC2 _ _ _ _ = _
  simp only [generateFMAux]
  rw [show fmParamsC2.messageAmp = 1 from rfl, show fmParamsC2.messageFreq = 1 from rfl,
    show fmParamsC2.carrierAmp = 1 from rfl, show fmParamsC2.carrierFreq = 0 from rfl,
    show fmParamsC2.modulationIdx = 4 * Real.pi from rfl]
  rw [show (2 * Real.pi * 1 * (0 : ℝ)) = 0 by ring,
    show (2 * Real.pi * 1 * (1 / 4 : ℝ)) = Real.pi / 2 by ring,
    show (2 * Real.pi * 1 * (1 / 2 : ℝ)) = Real.pi by ring,
    show (2 * Real.pi * 1 * (3 / 4 : ℝ)) = Real.pi / 2 + Real.pi by ring,
    show (2 * Real.pi * 1 * (1 : ℝ)) = 2 * Real.pi by ring,
    show (2 * Real.pi * 1 * (5 / 4 : ℝ)) = Real.pi / 2 + 2 * Real.pi by ring,
    show (2 * Real.pi * 1 * (3 / 2 : ℝ)) = 3 * Real.pi by ring,
    show (2 * Real.pi * 1 * (7 / 4 : ℝ)) = Real.pi / 2 + 3 * Real.pi by ring,
    show (2 * Real.pi * 1 * (2 : ℝ)) = 4 * Real.pi by ring,
    show (2 * Real.pi * 1 * (9 / 4 : ℝ)) = Real.pi / 2 + 4 * Real.pi by ring,
    Real.sin_zero, Real.sin_pi_div_two, Real.sin_pi, sin_pi_half_add_pi,
    Real.sin_two_pi, sin_pi_half_add_two_pi, sin_three_pi,
    sin_pi_half_add_three_pi, sin_four_pi, sin_pi_half_add_four_pi]
  rw [show fmParamsC2.samplingRate = (4 : ℝ) from rfl]
  norm_num
  rw [show (4 * Real.pi * (1 / 8 : ℝ)) = Real.pi / 2 by ring,
    show (4 * Real.pi * (1 / 4 : ℝ)) = Real.pi by ring,
    Real.sin_pi_div_two, Real.sin_pi]
  norm_num [fmCleanC2]

theorem sumSq_fmCleanC2 : sumSq fmCleanC2 = 5 := by
  norm_num [sumSq, fmCleanC2]

theorem sqrt2_mul_sqrt_half : Real.sqrt 2 * Real.sqrt (1 / 2) = 1 := by
  rw [← Real.sqrt_mul (by norm_num : (0 : ℝ) ≤ 2),
    show (2 : ℝ) * (1 / 2) = 1 by norm_num, Real.sqrt_one]

theorem noisyFMC2 (T : List ℝ) :
    addAWGNWithRNG ⟨T, fmCleanC2⟩ 0 ⟨streamC2, 0⟩ =
      (⟨T, noisyTargetC2⟩, ⟨streamC2, 10⟩) := by
  unfold addAWGNWithRNG
  dsimp only
  rw [awgnLoop_eq _ fmCleanC2 streamC2 0]
  have hσ : Real.sqrt (sumSq fmCleanC2 / ((fmCleanC2.length : ℕ) : ℝ) /
      (10 : ℝ) ^ ((0 : ℝ) / 10)) = Real.sqrt (1 / 2) := by
    rw [sumSq_fmCleanC2, show ((0 : ℝ) / 10) = 0 by norm_num, Real.rpow_zero]
    norm_num [fmCleanC2]
  rw [show List.range fmCleanC2.length = [0, 1, 2, 3, 4, 5, 6, 7, 8, 9] from rfl]
  refine congrArg₂ Prod.mk (congrArg (Signal.mk T) ?_) (by simp [fmCleanC2])
  rw [hσ]
  simp only [List.map_cons, List.map_nil]
  have comp : ∀ k : ℕ,
      fmCleanC2.getD k 0 + streamC2 (0 + k) * Real.sqrt (1 / 2) =
        noisyTargetC2.getD k 0 := by
    intro k
    rw [Nat.zero_add]
    unfold streamC2
    rw [mul_assoc, sqrt2_mul_sqrt_half, mul_one]
    ring
  rw [comp 0, comp 1, comp 2, comp 3, comp 4, comp 5, comp 6, comp 7, comp 8,
    comp 9]
  norm_num [noisyTargetC2]

theorem movingAvg_ten (a0 a1 a2 a3 a4 a5 a6 a7 a8 a9 : ℝ) :
    movingAvg [a0, a1, a2, a3, a4, a5, a6, a7, a8, a9] =
      List.replicate 10
        ((a0 + a1 + a2 + a3 + a4 + a5 + a6 + a7 + a8 + a9) / 10) := by
  unfold movingAvg
  rw [show List.range ([a0, a1, a2, a3, a4, a5, a6, a7, a8, a9].length) =
    [0, 1, 2, 3, 4, 5, 6, 7, 8, 9] from rfl]
  simp only [List.map_cons, List.map_nil]
  unfold movingAvgAt
  norm_num [List.replicate]

theorem demodFMC2 (T : List ℝ) :
    demodulateFM ⟨T, noisyTargetC2⟩ fmParamsC2 = ⟨T, demodValsC2⟩ := by
  unfold demodulateFM
  rw [show (⟨T, noisyTargetC2⟩ : Signal).values =
    ([2, 2, 0, 0, 0, 0, 0, 0, 0, 0] : List ℝ) from rfl]
  rw [show quadOf ([2, 2, 0, 0, 0, 0, 0, 0, 0, 0] : List ℝ) =
    [2, 2, 2, 0, 0, 0, 0, 0, 0, 0] by norm_num [quadOf]]
  rw [show List.range ([2, 2, 0, 0, 0, 0, 0, 0, 0, 0] : List ℝ).length =
    [0, 1, 2, 3, 4, 5, 6, 7, 8, 9] from rfl]
  simp only [List.map_cons, List.map_nil]
  rw [show fmParamsC2.modulationIdx = 4 * Real.pi from rfl,
    show (1 / fmParamsC2.samplingRate : ℝ) = 1 / 4 from rfl]
  rw [show fmRawAt [2, 2, 0, 0, 0, 0, 0, 0, 0, 0] [2, 2, 2, 0, 0, 0, 0, 0, 0, 0]
      (1 / 4) (4 * Real.pi) 0 = 0 from rfl]
  rw [show fmRawAt [2, 2, 0, 0, 0, 0, 0, 0, 0, 0] [2, 2, 2, 0, 0, 0, 0, 0, 0, 0]
      (1 / 4) (4 * Real.pi) 1 = 0 by norm_num [fmRawAt]]
  rw [show fmRawAt [2, 2, 0, 0, 0, 0, 0, 0, 0, 0] [2, 2, 2, 0, 0, 0, 0, 0, 0, 0]
      (1 / 4) (4 * Real.pi) 2 =
      4 / (2 * Real.pi * (1 / 4) * 4) / (4 * Real.pi) by norm_num [fmRawAt]]
  rw [show fmRawAt [2, 2, 0, 0, 0, 0, 0, 0, 0, 0] [2, 2, 2, 0, 0, 0, 0, 0, 0, 0]
      (1 / 4) (4 * Real.pi) 3 = 0 by norm_num [fmRawAt]]
  rw [show fmRawAt [2, 2, 0, 0, 0, 0, 0, 0, 0, 0] [2, 2, 2, 0, 0, 0, 0, 0, 0, 0]
      (1 / 4) (4 * Real.pi) 4 = 0 by norm_num [fmRawAt]]
  rw [show fmRawAt [2, 2, 0, 0, 0, 0, 0, 0, 0, 0] [2, 2, 2, 0, 0, 0, 0, 0, 0, 0]
      (1 / 4) (4 * Real.pi) 5 = 0 by norm_num [fmRawAt]]
  rw [show fmRawAt [2, 2, 0, 0, 0, 0, 0, 0, 0, 0] [2, 2, 2, 0, 0, 0, 0, 0, 0, 0]
      (1 / 4) (4 * Real.pi) 6 = 0 by norm_num [fmRawAt]]
  rw [show fmRawAt [2, 2, 0, 0, 0, 0, 0, 0, 0, 0] [2, 2, 2, 0, 0, 0, 0, 0, 0, 0]
      (1 / 4) (4 * Real.pi) 7 = 0 by norm_num [fmRawAt]]
  rw [show fmRawAt [2, 2, 0, 0, 0, 0, 0, 0, 0, 0] [2, 2, 2, 0, 0, 0, 0, 0, 0, 0]
      (1 / 4) (4 * Real.pi) 8 = 0 by norm_num [fmRawAt]]
  rw [show fmRawAt [2, 2, 0, 0, 0, 0, 0, 0, 0, 0] [2, 2, 2, 0, 0, 0, 0, 0, 0, 0]
      (1 / 4) (4 * Real.pi) 9 = 0 by norm_num [fmRawAt]]
  rw [movingAvg_ten]
  refine congrArg (Signal.mk T) ?_
  rw [show demodValsC2 = List.replicate 10 cC2 from rfl]
  refine congrArg (List.replicate 10) ?_
  unfold cC2
  have hpi := Real.pi_ne_zero
  field_simp
  ring

theorem cC2_pos : 0 < cC2 := by
  unfold cC2
  positivity

theorem scoreC2unaligned (T1 T2 : List ℝ) :
    calculateSNRfin ⟨T1, basebandValsC2⟩ ⟨T2, demodValsC2⟩ =
      10 * Real.logb 10
        ((5 / 10) / ((10 * cC2 ^ 2 - 2 * cC2 + 5) / 10)) := by
  unfold calculateSNRfin
  rw [snrSums_eq]
  rw [show (⟨T1, basebandValsC2⟩ : Signal).values = basebandValsC2 from rfl,
    show (⟨T2, demodValsC2⟩ : Signal).values = demodValsC2 from rfl]
  rw [show List.range basebandValsC2.length =
    [0, 1, 2, 3, 4, 5, 6, 7, 8, 9] from rfl]
  dsimp only
  simp only [List.map_cons, List.map_nil, List.sum_cons, List.sum_nil]
  norm_num [basebandValsC2, demodValsC2]
  congr 1
  ring

theorem scoreC2aligned (T1 T2 : List ℝ) :
    calculateSNRfin ⟨T1, basebandValsC2⟩ ⟨T2, alignedValsC2⟩ =
      10 * Real.logb 10
        ((5 / 10) / ((9 * cC2 ^ 2 - 2 * cC2 + 5) / 10)) := by
  unfold calculateSNRfin
  rw [snrSums_eq]
  rw [show (⟨T1, basebandValsC2⟩ : Signal).values = basebandValsC2 from rfl,
    show (⟨T2, alignedValsC2⟩ : Signal).values = alignedValsC2 from rfl]
  rw [show List.range basebandValsC2.length =
    [0, 1, 2, 3, 4, 5, 6, 7, 8, 9] from rfl]
  dsimp only
  simp only [List.map_cons, List.map_nil, List.sum_cons, List.sum_nil]
  norm_num [basebandValsC2, alignedValsC2]
  congr 1
  ring

theorem scoresC2_ne :
    10 * Real.logb 10 ((5 / 10) / ((10 * cC2 ^ 2 - 2 * cC2 + 5) / 10)) ≠
      10 * Real.logb 10 ((5 / 10) / ((9 * cC2 ^ 2 - 2 * cC2 + 5) / 10)) := by
  have hc := cC2_pos
  have h1 : (0 : ℝ) < 10 * cC2 ^ 2 - 2 * cC2 + 5 := by
    nlinarith [sq_nonneg (cC2 - 1)]
  have h2 : (0 : ℝ) < 9 * cC2 ^ 2 - 2 * cC2 + 5 := by
    nlinarith [sq_nonneg (cC2 - 1)]
  have hlt : (5 / 10 : ℝ) / ((10 * cC2 ^ 2 - 2 * cC2 + 5) / 10) <
      (5 / 10) / ((9 * cC2 ^ 2 - 2 * cC2 + 5) / 10) := by
    apply div_lt_div_of_pos_left (by norm_num) (by positivity)
    apply div_lt_div_of_pos_right ?_ (by norm_num)
    nlinarith [mul_pos hc hc]
  have hargpos : (0 : ℝ) <
      (5 / 10 : ℝ) / ((10 * cC2 ^ 2 - 2 * cC2 + 5) / 10) := by positivity
  have hlog := Real.logb_lt_logb (by norm_num : (1 : ℝ) < 10) hargpos hlt
  intro heq
  have := mul_left_cancel₀ (by norm_num : (10 : ℝ) ≠ 0) heq
  linarith

theorem corrCountC2_neg1 :
    corrCount basebandValsC2 demodValsC2 (-1) = (cC2, 9) := by
  unfold corrCount
  rw [show List.range basebandValsC2.length =
    [0, 1, 2, 3, 4, 5, 6, 7, 8, 9] from rfl]
  simp only [List.foldl_cons, List.foldl_nil]
  norm_num [basebandValsC2, demodValsC2, show Int.toNat 0 = 0 from rfl, show Int.toNat 1 = 1 from rfl, show Int.toNat 2 = 2 from rfl, show Int.toNat 3 = 3 from rfl, show Int.toNat 4 = 4 from rfl, show Int.toNat 5 = 5 from rfl, show Int.toNat 6 = 6 from rfl, show Int.toNat 7 = 7 from rfl, show Int.toNat 8 = 8 from rfl, show Int.toNat 9 = 9 from rfl]

theorem corrCountC2_zero :
    corrCount basebandValsC2 demodValsC2 0 = (cC2, 10) := by
  unfold corrCount
  rw [show List.range basebandValsC2.length =
    [0, 1, 2, 3, 4, 5, 6, 7, 8, 9] from rfl]
  simp only [List.foldl_cons, List.foldl_nil]
  norm_num [basebandValsC2, demodValsC2, show Int.toNat 0 = 0 from rfl, show Int.toNat 1 = 1 from rfl, show Int.toNat 2 = 2 from rfl, show Int.toNat 3 = 3 from rfl, show Int.toNat 4 = 4 from rfl, show Int.toNat 5 = 5 from rfl, show Int.toNat 6 = 6 from rfl, show Int.toNat 7 = 7 from rfl, show Int.toNat 8 = 8 from rfl, show Int.toNat 9 = 9 from rfl]

theorem corrCountC2_one :
    corrCount basebandValsC2 demodValsC2 1 = (0, 9) := by
  unfold corrCount
  rw [show List.range basebandValsC2.length =
    [0, 1, 2, 3, 4, 5, 6, 7, 8, 9] from rfl]
  simp only [List.foldl_cons, List.foldl_nil]
  norm_num [basebandValsC2, demodValsC2, show Int.toNat 0 = 0 from rfl, show Int.toNat 1 = 1 from rfl, show Int.toNat 2 = 2 from rfl, show Int.toNat 3 = 3 from rfl, show Int.toNat 4 = 4 from rfl, show Int.toNat 5 = 5 from rfl, show Int.toNat 6 = 6 from rfl, show Int.toNat 7 = 7 from rfl, show Int.toNat 8 = 8 from rfl, show Int.toNat 9 = 9 from rfl]

theorem alignStepC2_neg1 :
    alignStep basebandValsC2 demodValsC2 (none, 0) (-1) =
      (some (cC2 / 9), -1) := by
  unfold alignStep
  rw [corrCountC2_neg1]
  dsimp only
  rw [if_pos (by norm_num : (0 : ℕ) < 9)]
  norm_num

theorem alignStepC2_zero :
    alignStep basebandValsC2 demodValsC2 (some (cC2 / 9), -1) 0 =
      (some (cC2 / 9), -1) := by
  have hc := cC2_pos
  unfold alignStep
  rw [corrCountC2_zero]
  dsimp only
  rw [if_pos (by norm_num : (0 : ℕ) < 10)]
  rw [if_neg ?_]
  rw [not_lt]
  push_cast
  rw [div_le_div_iff₀ (by norm_num) (by norm_num)]
  nlinarith

theorem alignStepC2_one :
    alignStep basebandValsC2 demodValsC2 (some (cC2 / 9), -1) 1 =
      (some (cC2 / 9), -1) := by
  have hc := cC2_pos
  unfold alignStep
  rw [corrCountC2_one]
  dsimp only
  rw [if_pos (by norm_num : (0 : ℕ) < 9)]
  rw [if_neg ?_]
  rw [not_lt]
  push_cast
  norm_num
  positivity

theorem alignScanC2 :
    alignScan basebandValsC2 demodValsC2 [-1, 0, 1] = (some (cC2 / 9), -1) := by
  unfold alignScan
  simp only [List.foldl_cons, List.foldl_nil]
  rw [alignStepC2_neg1, alignStepC2_zero, alignStepC2_one]

theorem delayWindow_ten : delayWindow 10 = [-1, 0, 1] := by
  unfold delayWindow
  rw [show min (10 / 10 : ℕ) 100 = 1 from rfl]
  rw [show List.range (2 * 1 + 1) = [0, 1, 2] from rfl]
  norm_num

theorem alignC2 :
    alignSignals basebandValsC2 demodValsC2 = alignedValsC2 := by
  unfold alignSignals
  rw [if_neg (by norm_num [basebandValsC2, demodValsC2])]
  unfold bestDelay
  rw [show basebandValsC2.length = 10 from rfl, delayWindow_ten, alignScanC2]
  unfold shiftWithZeroFill
  rw [show List.range 10 = [0, 1, 2, 3, 4, 5, 6, 7, 8, 9] from rfl]
  simp only [List.map_cons, List.map_nil]
  norm_num [demodValsC2, alignedValsC2, show Int.toNat 0 = 0 from rfl, show Int.toNat 1 = 1 from rfl, show Int.toNat 2 = 2 from rfl, show Int.toNat 3 = 3 from rfl, show Int.toNat 4 = 4 from rfl, show Int.toNat 5 = 5 from rfl, show Int.toNat 6 = 6 from rfl, show Int.toNat 7 = 7 from rfl, show Int.toNat 8 = 8 from rfl, show Int.toNat 9 = 9 from rfl]

theorem trialFMC2 :
    runSingleTrial ModulationType.FM fmParamsC2 0 ⟨streamC2, 0⟩ =
      some (10 * Real.logb 10
          ((5 / 10) / ((10 * cC2 ^ 2 - 2 * cC2 + 5) / 10)),
        ⟨streamC2, 10⟩) := by
  unfold runSingleTrial
  rw [basebandFMC2, fmSignalFMC2]
  simp only [Option.some_bind]
  try dsimp only
  rw [noisyFMC2]
  try dsimp only
  rw [demodFMC2]
  unfold computeOutputSNR
  rw [scoreC2unaligned]

theorem trialClaimFMC2 :
    runSingleTrialClaim ModulationType.FM fmParamsC2 0 ⟨streamC2, 0⟩ =
      some (10 * Real.logb 10
          ((5 / 10) / ((9 * cC2 ^ 2 - 2 * cC2 + 5) / 10)),
        ⟨streamC2, 10⟩) := by
  unfold runSingleTrialClaim
  rw [basebandFMC2, fmSignalFMC2]
  simp only [Option.some_bind]
  try dsimp only
  rw [noisyFMC2]
  try dsimp only
  rw [demodFMC2]
  try dsimp only
  rw [alignC2]
  unfold computeOutputSNR
  rw [scoreC2aligned]

/-! ### Invariants of the best-delay scan -/

theorem alignStep_none (r s : List ℝ) (a2 : ℤ) (d : ℤ) :
    alignStep r s (none, a2) d =
      if 0 < (corrCount r s d).2 then
        (some ((corrCount r s d).1 / ((corrCount r s d).2 : ℝ)), d)
      else (none, a2) := rfl

theorem alignStep_some (r s : List ℝ) (m0 : ℝ) (a2 : ℤ) (d : ℤ) :
    alignStep r s (some m0, a2) d =
      if 0 < (corrCount r s d).2 then
        (if (corrCount r s d).1 / ((corrCount r s d).2 : ℝ) > m0 then
          (some ((corrCount r s d).1 / ((corrCount r s d).2 : ℝ)), d)
        else (some m0, a2))
      else (some m0, a2) := rfl

theorem alignFold_mono (r s : List ℝ) :
    ∀ (L : List ℤ) (acc : Option ℝ × ℤ) (m0 : ℝ), acc.1 = some m0 →
      ∃ m, (L.foldl (alignStep r s) acc).1 = some m ∧ m0 ≤ m := by
  intro L
  induction L with
  | nil => exact fun acc m0 h => ⟨m0, h, le_refl m0⟩
  | cons d L ih =>
    intro acc m0 h
    rcases acc with ⟨a1, a2⟩
    cases a1 with
    | none => exact absurd h (by simp)
    | some m1 =>
      obtain rfl : m1 = m0 := by simpa using h
      rw [List.foldl_cons, alignStep_some]
      by_cases hc : 0 < (corrCount r s d).2
      · rw [if_pos hc]
        by_cases hgt : (corrCount r s d).1 / ((corrCount r s d).2 : ℝ) > m1
        · rw [if_pos hgt]
          obtain ⟨m, hm2, hle⟩ := ih
            (some ((corrCount r s d).1 / ((corrCount r s d).2 : ℝ)), d) _ rfl
          exact ⟨m, hm2, le_trans (le_of_lt hgt) hle⟩
        · rw [if_neg hgt]
          exact ih (some m1, a2) m1 rfl
      · rw [if_neg hc]
        exact ih (some m1, a2) m1 rfl

theorem alignFold_ge (r s : List ℝ) :
    ∀ (L : List ℤ) (acc : Option ℝ × ℤ) (d' : ℤ), d' ∈ L →
      0 < (corrCount r s d').2 →
      ∃ m, (L.foldl (alignStep r s) acc).1 = some m ∧
        (corrCount r s d').1 / ((corrCount r s d').2 : ℝ) ≤ m := by
  intro L
  induction L with
  | nil => intro acc d' h; exact absurd h (List.not_mem_nil d')
  | cons d L ih =>
    intro acc d' hmem hc'
    rw [List.foldl_cons]
    rcases List.mem_cons.mp hmem with rfl | hmem'
    · have hstep : ∃ m1, (alignStep r s acc d').1 = some m1 ∧
          (corrCount r s d').1 / ((corrCount r s d').2 : ℝ) ≤ m1 := by
        rcases acc with ⟨a1, a2⟩
        cases a1 with
        | none =>
          rw [alignStep_none, if_pos hc']
          exact ⟨_, rfl, le_refl _⟩
        | some m0 =>
          rw [alignStep_some, if_pos hc']
          by_cases hgt : (corrCount r s d').1 / ((corrCount r s d').2 : ℝ) > m0
          · rw [if_pos hgt]
            exact ⟨_, rfl, le_refl _⟩
          · rw [if_neg hgt]
            exact ⟨m0, rfl, not_lt.mp hgt⟩
      obtain ⟨m1, h1, hle1⟩ := hstep
      obtain ⟨m, hm, hle2⟩ := alignFold_mono r s L (alignStep r s acc d') m1 h1
      exact ⟨m, hm, le_trans hle1 hle2⟩
    · exact ih (alignStep r s acc d) d' hmem' hc'

theorem alignFold_attained (r s : List ℝ) :
    ∀ (L : List ℤ) (acc : Option ℝ × ℤ) (m : ℝ),
      (L.foldl (alignStep r s) acc).1 = some m →
      (∃ d ∈ L, 0 < (corrCount r s d).2 ∧
        m = (corrCount r s d).1 / ((corrCount r s d).2 : ℝ) ∧
        (L.foldl (alignStep r s) acc).2 = d) ∨
      (acc.1 = some m ∧ (L.foldl (alignStep r s) acc).2 = acc.2) := by
  intro L
  induction L with
  | nil => exact fun acc m h => Or.inr ⟨h, rfl⟩
  | cons d L ih =>
    intro acc m h
    rw [List.foldl_cons] at h ⊢
    rcases ih (alignStep r s acc d) m h with hcase | ⟨h1, h2⟩
    · obtain ⟨d2, hd2, hc2, hm2, hres⟩ := hcase
      exact Or.inl ⟨d2, List.mem_cons_of_mem d hd2, hc2, hm2, hres⟩
    · rcases acc with ⟨a1, a2⟩
      cases a1 with
      | none =>
        by_cases hc : 0 < (corrCount r s d).2
        · rw [alignStep_none, if_pos hc] at h1 h2 ⊢
          refine Or.inl ⟨d, List.mem_cons_self d L, hc, ?_, ?_⟩
          · have := h1
            simp only at this
            exact (Option.some.injEq _ _ ▸ this).symm
          · simpa using h2
        · rw [alignStep_none, if_neg hc] at h1
          exact absurd h1 (by simp)
      | some m0 =>
        by_cases hc : 0 < (corrCount r s d).2
        · by_cases hgt : (corrCount r s d).1 / ((corrCount r s d).2 : ℝ) > m0
          · rw [alignStep_some, if_pos hc, if_pos hgt] at h1 h2 ⊢
            refine Or.inl ⟨d, List.mem_cons_self d L, hc, ?_, ?_⟩
            · have := h1
              simp only at this
              exact (Option.some.injEq _ _ ▸ this).symm
            · simpa using h2
          · rw [alignStep_some, if_pos hc, if_neg hgt] at h1 h2 ⊢
            exact Or.inr ⟨by simpa using h1, by simpa using h2⟩
        · rw [alignStep_some, if_neg hc] at h1 h2 ⊢
          exact Or.inr ⟨by simpa using h1, by simpa using h2⟩

theorem delayWindow_bound (n : ℕ) (d : ℤ) (hd : d ∈ delayWindow n) :
    d.natAbs ≤ min (n / 10) 100 := by
  unfold delayWindow at hd
  simp only [List.mem_map, List.mem_range] at hd
  obtain ⟨k, hk, rfl⟩ := hd
  generalize min (n / 10) 100 = M at hk ⊢
  omega

theorem norm7 (k : ℕ) : normC1 7 k = 0 := by
  simp [normC1]

theorem norm8_ge4 (k : ℕ) (hk : 4 ≤ k) : normC1 8 k = 0 := by
  simp only [normC1, amCleanC1]
  rw [if_neg]
  rintro ⟨-, hlt⟩
  omega

/-! ### Worker-level evaluations for the two schedules -/

theorem workerScheduleA :
    workerRun amParamsC1 fmParamsC1 [0, 0] 1 [0, 1] ⟨normC1 7, 0⟩ =
      some ([(0, resultAMzero), (1, resultAMzero)],
        [(0, resultFMzero), (1, resultFMzero)], ⟨normC1 7, 16⟩) := by
  simp only [workerRun]
  rw [show (([0, 0] : List ℝ).getD 0 0) = 0 from rfl,
    show (([0, 0] : List ℝ).getD 1 0) = 0 from rfl]
  rw [snrSimAMzeroC1 (normC1 7) 0 (fun k _ => norm7 _)]
  simp only [Option.some_bind]
  rw [show (0 + 4 : ℕ) = 4 from rfl]
  rw [snrSimFMzeroC1 (normC1 7) 4 (fun k _ => norm7 _)]
  simp only [Option.some_bind]
  rw [show (4 + 4 : ℕ) = 8 from rfl]
  rw [snrSimAMzeroC1 (normC1 7) 8 (fun k _ => norm7 _)]
  simp only [Option.some_bind]
  rw [show (8 + 4 : ℕ) = 12 from rfl]
  rw [snrSimFMzeroC1 (normC1 7) 12 (fun k _ => norm7 _)]
  simp only [Option.some_bind]
  rw [show (12 + 4 : ℕ) = 16 from rfl]
  rfl

theorem workerScheduleB0 :
    workerRun amParamsC1 fmParamsC1 [0, 0] 1 [0] ⟨normC1 7, 0⟩ =
      some ([(0, resultAMzero)], [(0, resultFMzero)], ⟨normC1 7, 8⟩) := by
  simp only [workerRun]
  rw [show (([0, 0] : List ℝ).getD 0 0) = 0 from rfl]
  rw [snrSimAMzeroC1 (normC1 7) 0 (fun k _ => norm7 _)]
  simp only [Option.some_bind]
  rw [show (0 + 4 : ℕ) = 4 from rfl]
  rw [snrSimFMzeroC1 (normC1 7) 4 (fun k _ => norm7 _)]
  simp only [Option.some_bind]
  rw [show (4 + 4 : ℕ) = 8 from rfl]
  rfl

theorem workerScheduleB1 :
    workerRun amParamsC1 fmParamsC1 [0, 0] 1 [1] ⟨normC1 8, 0⟩ =
      some ([(1, resultAMstreamB)], [(1, resultFMzero)], ⟨normC1 8, 8⟩) := by
  simp only [workerRun]
  rw [show (([0, 0] : List ℝ).getD 1 0) = 0 from rfl]
  rw [snrSimAMstreamBC1]
  simp only [Option.some_bind]
  rw [snrSimFMzeroC1 (normC1 8) 4 (fun k hk => norm8_ge4 _ (by omega))]
  simp only [Option.some_bind]
  rw [show (4 + 4 : ℕ) = 8 from rfl]
  rfl

theorem parallelScheduleA :
    runParallelMonteCarloSimulation normC1 amParamsC1 fmParamsC1 7 [0, 0] 1
        [[0, 1]] =
      some ([resultAMzero, resultAMzero], [resultFMzero, resultFMzero]) := by
  unfold runParallelMonteCarloSimulation collectWorkers
  rw [show ((7 : ℤ) + 0) = 7 by norm_num, workerScheduleA]
  simp only [Option.some_bind, collectWorkers]
  simp [applyWrites, defaultPerformanceResult]

theorem collectScheduleB :
    collectWorkers normC1 7 amParamsC1 fmParamsC1 [0, 0] 1 [[0], [1]] 0 =
      some ([(0, resultAMzero), (1, resultAMstreamB)],
        [(0, resultFMzero), (1, resultFMzero)]) := by
  simp only [collectWorkers]
  rw [show ((7 : ℤ) + 0) = 7 by norm_num, workerScheduleB0]
  simp only [Option.some_bind]
  rw [show ((7 : ℤ) + (0 + 1)) = 8 by norm_num, workerScheduleB1]
  simp only [Option.some_bind, collectWorkers]
  rfl

theorem parallelScheduleB :
    runParallelMonteCarloSimulation normC1 amParamsC1 fmParamsC1 7 [0, 0] 1
        [[0], [1]] =
      some ([resultAMzero, resultAMstreamB], [resultFMzero, resultFMzero]) := by
  unfold runParallelMonteCarloSimulation
  rw [collectScheduleB]
  simp [applyWrites, defaultPerformanceResult]

theorem logb_third_lt : Real.logb 10 (1 / 9) < Real.logb 10 (2 / 3) :=
  Real.logb_lt_logb (by norm_num) (by norm_num) (by norm_num)

/-! ### Helpers for the remaining claims -/

theorem getD_range_map (f : ℕ → ℝ) (n i : ℕ) (h : i < n) :
    ((List.range n).map f).getD i 0 = f i := by
  rw [List.getD_eq_getElem?_getD]
  simp [List.getElem?_map, List.getElem?_range h]

theorem quadOf_getD_zero (v : List ℝ) (hv : v ≠ []) :
    (quadOf v).getD 0 0 = v.getD 0 0 := by
  match v with
  | [] => exact absurd rfl hv
  | v0 :: rest => rfl

theorem quadOf_getD_succ (v : List ℝ) (i : ℕ) (h : i + 1 < v.length) :
    (quadOf v).getD (i + 1) 0 = v.getD i 0 := by
  match v with
  | [] => simp at h
  | v0 :: rest =>
    simp only [List.length_cons] at h
    show ((v0 :: rest).dropLast).getD i 0 = _
    have e : ((v0 :: rest).dropLast).length = rest.length := by simp
    have hlen : i < ((v0 :: rest).dropLast).length := by omega
    have h2 : i < (v0 :: rest).length := by simp only [List.length_cons]; omega
    simp only [List.getD_eq_getElem?_getD, List.getElem?_eq_getElem hlen,
      List.getElem?_eq_getElem h2, Option.getD_some]
    exact List.getElem_dropLast _ _ _

theorem generateFMAux_length (p : SignalParams) (dt : ℝ) :
    ∀ (ts : List ℝ) (a b : ℝ), (generateFMAux p dt a b ts).length = ts.length := by
  intro ts
  induction ts with
  | nil => intro a b; rfl
  | cons t rest ih => intro a b; simp [generateFMAux, ih]

theorem generateFM_values_length (p : SignalParams) (s : Signal)
    (h : generateFM p = some s) : s.values.length = s.time.length := by
  unfold generateFM at h
  match ht : generateTimeVector p with
  | none => rw [ht] at h; simp at h
  | some time =>
    rw [ht] at h
    simp only [Option.map_some] at h
    cases h
    match time with
    | [] => rfl
    | t0 :: ts => simp [generateFMAux_length]

theorem numSamplesZ_of_nonpos (p : SignalParams)
    (h1 : p.samplingRate * p.duration ≤ 0) (h2 : -1 < p.samplingRate * p.duration) :
    numSamplesZ p = 0 := by
  unfold numSamplesZ goTrunc
  by_cases h : 0 ≤ p.samplingRate * p.duration
  · rw [if_pos h]
    have : p.samplingRate * p.duration = 0 := le_antisymm h1 h
    rw [this]
    simp
  · rw [if_neg h]
    have hc : ⌈p.samplingRate * p.duration⌉ ≤ 0 :=
      Int.ceil_le.mpr (by exact_mod_cast h1)
    have h3 : (-1 : ℤ) < ⌈p.samplingRate * p.duration⌉ := by
      have : ((-1 : ℤ) : ℝ) < p.samplingRate * p.duration := by exact_mod_cast h2
      exact Int.lt_ceil.mpr this
    omega

theorem numSamplesZ_of_le_neg_one (p : SignalParams)
    (h : p.samplingRate * p.duration ≤ -1) : numSamplesZ p < 0 := by
  unfold numSamplesZ goTrunc
  rw [if_neg (by nlinarith)]
  have : ⌈p.samplingRate * p.duration⌉ ≤ -1 := by
    rw [Int.ceil_le]
    exact_mod_cast h
  omega

theorem generateTimeVector_none (p : SignalParams)
    (h : p.samplingRate * p.duration ≤ -1) : generateTimeVector p = none := by
  unfold generateTimeVector
  rw [if_pos (numSamplesZ_of_le_neg_one p h)]

/-! ### Claim theorems -/

/-- C1, counterexample: with the same base seed 7, trial count 1 and SNR sweep
`[0, 0]`, two valid executions of `runParallelMonteCarloSimulation` over the
concrete stream family `normC1` — one with a single worker pulling both jobs,
one with two workers pulling one job each — produce different result arrays,
so the output is not independent of the worker count and the job-to-worker
assignment. -/
theorem claim_C1_counterexample :
    ValidSchedule [[0, 1]] 2 ∧ ValidSchedule [[0], [1]] 2 ∧
      runParallelMonteCarloSimulation normC1 amParamsC1 fmParamsC1 7 [0, 0] 1
          [[0, 1]] ≠
        runParallelMonteCarloSimulation normC1 amParamsC1 fmParamsC1 7 [0, 0] 1
          [[0], [1]] := by
  refine ⟨?_, ?_, ?_⟩
  · unfold ValidSchedule
    rw [show ([[0, 1]] : List (List ℕ)).flatten = List.range 2 from rfl]
  · unfold ValidSchedule
    rw [show ([[0], [1]] : List (List ℕ)).flatten = List.range 2 from rfl]
  · rw [parallelScheduleA, parallelScheduleB]
    intro h
    have h1 : resultAMzero = resultAMstreamB := by
      have hc := congrArg
        (fun x : Option (List PerformanceResult × List PerformanceResult) =>
          (x.getD ([], [])).1.getD 1 defaultPerformanceResult) h
      simpa using hc
    have h2 := congrArg PerformanceResult.outputSNRdB h1
    simp only [resultAMzero, resultAMstreamB] at h2
    have hlt := logb_third_lt
    nlinarith [hlt, h2]

/-- C1, amended: for a fixed schedule (the order in which each worker pulled
SNR-point jobs from the shared queue), the parallel run-sweep is a function of
`(baseSeed, numTrials, snrRange, schedule)` alone: worker `w` processes whole
SNR-point jobs (all trials for AM and then FM) with the private stream
`norm (seed + w)`, each result record carries its job's original sweep index,
those indices are exactly the sweep indices (each exactly once), and replaying
the write records in any completion order yields the same output arrays.
Different schedules (worker counts or job assignments) may change the output,
as `claim_C1_counterexample` shows. -/
theorem claim_C1_amended (norm : ℤ → ℕ → ℝ) (amParams fmParams : SignalParams)
    (seed : ℤ) (snrRange : List ℝ) (numIterations : ℕ)
    (schedule : List (List ℕ)) (hvalid : ValidSchedule schedule snrRange.length)
    (amW fmW : List (ℕ × PerformanceResult))
    (hcollect : collectWorkers norm seed amParams fmParams snrRange
      numIterations schedule 0 = some (amW, fmW)) :
    runParallelMonteCarloSimulation norm amParams fmParams seed snrRange
        numIterations schedule =
      some
        (applyWrites amW (List.replicate snrRange.length defaultPerformanceResult),
          applyWrites fmW (List.replicate snrRange.length defaultPerformanceResult)) ∧
    (amW.map Prod.fst).Perm (List.range snrRange.length) ∧
    (fmW.map Prod.fst).Perm (List.range snrRange.length) ∧
    (∀ ws : List (ℕ × PerformanceResult), ws.Perm amW →
      applyWrites ws (List.replicate snrRange.length defaultPerformanceResult) =
        applyWrites amW (List.replicate snrRange.length defaultPerformanceResult)) ∧
    (∀ ws : List (ℕ × PerformanceResult), ws.Perm fmW →
      applyWrites ws (List.replicate snrRange.length defaultPerformanceResult) =
        applyWrites fmW (List.replicate snrRange.length defaultPerformanceResult)) := by
  have hfst := collectWorkers_fst norm seed amParams fmParams snrRange
    numIterations schedule 0 amW fmW hcollect
  have hpermAM : (amW.map Prod.fst).Perm (List.range snrRange.length) := by
    rw [hfst.1]; exact hvalid
  have hpermFM : (fmW.map Prod.fst).Perm (List.range snrRange.length) := by
    rw [hfst.2]; exact hvalid
  have hnodupAM : (amW.map Prod.fst).Nodup :=
    hpermAM.nodup_iff.mpr (List.nodup_range _)
  have hnodupFM : (fmW.map Prod.fst).Nodup :=
    hpermFM.nodup_iff.mpr (List.nodup_range _)
  refine ⟨?_, hpermAM, hpermFM, ?_, ?_⟩
  · unfold runParallelMonteCarloSimulation
    rw [hcollect]
    rfl
  · intro ws hws
    exact applyWrites_perm ws amW hws ((hws.map Prod.fst).nodup_iff.mpr hnodupAM) _
  · intro ws hws
    exact applyWrites_perm ws fmW hws ((hws.map Prod.fst).nodup_iff.mpr hnodupFM) _

/-- C3: both AWGN entry points return a fresh Signal of the same length with
the input timestamps, whose `i`-th value is the `i`-th input value plus the
`i`-th standard-normal draw of the generator scaled by
`sqrt(meanSquare(input) / 10^(snrDB/10))`; `addAWGN` and `addAWGNWithRNG`
compute the same function of the generator stream. -/
theorem claim_C3 (signal : Signal) (snrDB : ℝ) (rng : RNG) :
    (addAWGNWithRNG signal snrDB rng).1.values.length = signal.values.length ∧
    (addAWGNWithRNG signal snrDB rng).1.time = signal.time ∧
    (∀ i, i < signal.values.length →
      (addAWGNWithRNG signal snrDB rng).1.values.getD i 0 =
        signal.values.getD i 0 +
          Real.sqrt ((((signal.values.map (fun v => v * v)).sum /
              (signal.values.length : ℝ)) / (10 : ℝ) ^ (snrDB / 10))) *
            rng.stream (rng.pos + i)) ∧
    addAWGN signal snrDB rng = addAWGNWithRNG signal snrDB rng := by
  obtain ⟨g, p⟩ := rng
  refine ⟨?_, rfl, ?_, rfl⟩
  · show ((addAWGNWithRNG signal snrDB ⟨g, p⟩).1.values).length = _
    unfold addAWGNWithRNG
    dsimp only
    rw [awgnLoop_eq]
    simp
  · intro i hi
    show ((addAWGNWithRNG signal snrDB ⟨g, p⟩).1.values).getD i 0 = _
    unfold addAWGNWithRNG
    dsimp only
    rw [awgnLoop_eq]
    show ((List.range signal.values.length).map _).getD i 0 = _
    rw [getD_range_map _ _ i hi, sumSq_eq]
    ring

/-- C3, witness: the characterization applied to a one-sample signal with a
constant draw stream. -/
theorem claim_C3_witness :
    0 < ([3] : List ℝ).length ∧
      (addAWGNWithRNG ⟨[0], [3]⟩ 0 ⟨fun _ => 5, 0⟩).1.values.getD 0 0 =
        ([3] : List ℝ).getD 0 0 +
          Real.sqrt (((([3] : List ℝ).map (fun v => v * v)).sum /
              ((([3] : List ℝ).length : ℕ) : ℝ)) / (10 : ℝ) ^ ((0 : ℝ) / 10)) *
            (fun _ : ℕ => (5 : ℝ)) (0 + 0) :=
  ⟨by norm_num, (claim_C3 ⟨[0], [3]⟩ 0 ⟨fun _ => 5, 0⟩).2.2.1 0 (by norm_num)⟩

/-- C4: the FM demodulator copies the timestamps, applies the same
moving-average filter as the AM demodulator to the raw discriminator
sequence, and that raw sequence is zero at index 0 and, at each `i ≥ 1`,
equals the guarded cross-product formula over the input and its
one-sample-delayed companion (whose sample at index 0 is the input's first
sample, per the source's `quadSignal[0] = signal.Values[0]`). -/
theorem claim_C4 (signal : Signal) (params : SignalParams) :
    demodulateFM signal params =
      ⟨signal.time,
        movingAvg ((List.range signal.values.length).map (fun i =>
          if i = 0 then 0
          else
            let icur := signal.values.getD i 0
            let qcur := signal.values.getD (i - 1) 0
            let di := icur - signal.values.getD (i - 1) 0
            let dq := qcur - (if i = 1 then signal.values.getD 0 0
              else signal.values.getD (i - 2) 0)
            if icur * icur + qcur * qcur > 1e-10 then
              (icur * dq - qcur * di) /
                  (2 * Real.pi * (1 / params.samplingRate) *
                    (icur * icur + qcur * qcur)) /
                params.modulationIdx
            else 0))⟩ ∧
    demodulateAM signal =
      ⟨signal.time, movingAvg (signal.values.map (fun v => |v|))⟩ ∧
    (demodulateFM signal params).values.length = signal.values.length := by
  refine ⟨?_, rfl, by simp [demodulateFM, movingAvg_length]⟩
  unfold demodulateFM
  refine congrArg (Signal.mk _) (congrArg movingAvg ?_)
  refine List.map_congr_left ?_
  intro i hi
  have hin : i < signal.values.length := List.mem_range.mp hi
  match i with
  | 0 => rfl
  | Nat.succ j =>
    have hne : Nat.succ j ≠ 0 := Nat.succ_ne_zero j
    unfold fmRawAt
    rw [if_neg hne, if_neg hne]
    have hq1 : (quadOf signal.values).getD (j + 1) 0 = signal.values.getD j 0 :=
      quadOf_getD_succ signal.values j hin
    have hq2 : (quadOf signal.values).getD (j + 1 - 1) 0 =
        (if j + 1 = 1 then signal.values.getD 0 0
          else signal.values.getD (j + 1 - 2) 0) := by
      match j with
      | 0 =>
        rw [if_pos rfl]
        exact quadOf_getD_zero signal.values
          (by intro he; rw [he] at hin; simp at hin)
      | Nat.succ k =>
        rw [if_neg (by omega)]
        show (quadOf signal.values).getD (k + 1) 0 = _
        exact quadOf_getD_succ signal.values k (by omega)
    rw [hq1, hq2]
    rfl

/-- C5, counterexample: at sampling rate 1000 Hz and duration `-1` s the
sample count `int(1000 * -1) = -1000` is negative, so the generator panics in
`make` (modelled by `none`) instead of returning the zero-length Signal the
claim promises for `duration ≤ 0`. -/
theorem claim_C5_counterexample :
    negDurationParams.duration ≤ 0 ∧ generateBaseband negDurationParams = none := by
  constructor
  · norm_num [negDurationParams]
  · unfold generateBaseband
    rw [generateTimeVector_none negDurationParams (by norm_num [negDurationParams])]
    rfl

theorem mappedGenerator_cases (p : SignalParams) (F : List ℝ → Signal)
    (hF : ∀ t, (F t).time = t)
    (hFlen : ∀ t, (F t).values.length = t.length) :
    (0 ≤ p.samplingRate * p.duration →
      ∃ s, (generateTimeVector p).map F = some s ∧
        numSamplesZ p = Int.floor (p.samplingRate * p.duration) ∧
        s.time.length = (numSamplesZ p).toNat ∧
        s.values.length = s.time.length ∧
        (∀ i, i < s.time.length → s.time.getD i 0 = (i : ℝ) / p.samplingRate)) ∧
    (p.samplingRate * p.duration ≤ 0 → -1 < p.samplingRate * p.duration →
      ∃ s, (generateTimeVector p).map F = some s ∧ s.values.length = 0) ∧
    (p.samplingRate * p.duration ≤ -1 → (generateTimeVector p).map F = none) := by
  refine ⟨?_, ?_, ?_⟩
  · intro h
    rw [generateTimeVector_some p h]
    refine ⟨F _, rfl, ?_, ?_, ?_, ?_⟩
    · unfold numSamplesZ goTrunc
      rw [if_pos h]
    · rw [hF]
      simp only [List.length_map, List.length_range]
    · rw [hFlen, hF]
    · intro i hi
      rw [hF] at hi ⊢
      simp only [List.length_map, List.length_range] at hi
      rw [getD_range_map _ _ i hi, mul_one_div]
  · intro h1 h2
    have hz := numSamplesZ_of_nonpos p h1 h2
    unfold generateTimeVector
    rw [hz, if_neg (by omega)]
    refine ⟨F _, rfl, ?_⟩
    rw [hFlen]
    simp only [List.length_map, List.length_range, List.length_nil]
    rfl
  · intro h
    rw [generateTimeVector_none p h]
    rfl

/-- C5, amended: every waveform generator returns
`floor(samplingRate * duration)` samples with timestamps `i / samplingRate`
whenever `samplingRate * duration ≥ 0`; it returns a zero-length Signal when
`-1 < samplingRate * duration ≤ 0` (in particular for zero duration at a
positive rate); and it panics in `make` (modelled `none`) when
`samplingRate * duration ≤ -1`, e.g. for negative durations at positive
rates, instead of the zero-length Signal claimed for all `duration ≤ 0`. -/
theorem claim_C5_amended (p : SignalParams) (g : Option Signal)
    (hg : g ∈ [generateBaseband p, generateCarrier p, generateAM p, generateFM p]) :
    (0 ≤ p.samplingRate * p.duration →
      ∃ s, g = some s ∧
        numSamplesZ p = Int.floor (p.samplingRate * p.duration) ∧
        s.time.length = (numSamplesZ p).toNat ∧
        s.values.length = s.time.length ∧
        (∀ i, i < s.time.length → s.time.getD i 0 = (i : ℝ) / p.samplingRate)) ∧
    (p.samplingRate * p.duration ≤ 0 → -1 < p.samplingRate * p.duration →
      ∃ s, g = some s ∧ s.values.length = 0) ∧
    (p.samplingRate * p.duration ≤ -1 → g = none) := by
  simp only [List.mem_cons, List.not_mem_nil, or_false] at hg
  rcases hg with rfl | rfl | rfl | rfl
  · exact mappedGenerator_cases p _ (fun t => rfl) (fun t => by simp)
  · exact mappedGenerator_cases p _ (fun t => rfl) (fun t => by simp)
  · exact mappedGenerator_cases p _ (fun t => rfl) (fun t => by simp)
  · refine mappedGenerator_cases p _ (fun t => rfl) (fun t => ?_)
    match t with
    | [] => rfl
    | t0 :: ts => simp [generateFMAux_length]

/-- C5, witness: the amended theorem at 2 Hz sampling for 1.5 s, a positive
3-sample configuration. -/
theorem claim_C5_witness :
    0 ≤ posParams.samplingRate * posParams.duration ∧
      ∃ s, generateBaseband posParams = some s ∧
        numSamplesZ posParams =
          Int.floor (posParams.samplingRate * posParams.duration) ∧
        s.time.length = (numSamplesZ posParams).toNat ∧
        s.values.length = s.time.length ∧
        (∀ i, i < s.time.length →
          s.time.getD i 0 = (i : ℝ) / posParams.samplingRate) :=
  ⟨by norm_num [posParams],
    (claim_C5_amended posParams (generateBaseband posParams) (by simp)).1
      (by norm_num [posParams])⟩

/-- C6: evaluation of the code at the repository's own robustness-test input
(phase7_comprehensive_tests.go, negative sampling rate, which that test
asserts "should handle gracefully ... but not crash"): the sample count is
`int(-1000 * 0.1) = -100`, so every generator panics in `make`, modelled by
`none`. -/
theorem claim_C6_code_behavior :
    robustnessTestParams.samplingRate < 0 ∧
    generateBaseband robustnessTestParams = none ∧
    generateCarrier robustnessTestParams = none ∧
    generateAM robustnessTestParams = none ∧
    generateFM robustnessTestParams = none := by
  have hnone := generateTimeVector_none robustnessTestParams
    (by norm_num [robustnessTestParams])
  refine ⟨by norm_num [robustnessTestParams], ?_, ?_, ?_, ?_⟩
  · unfold generateBaseband; rw [hnone]; rfl
  · unfold generateCarrier; rw [hnone]; rfl
  · unfold generateAM; rw [hnone]; rfl
  · unfold generateFM; rw [hnone]; rfl

/-- C7: on equal-length signals the SNR metric sums squared original samples
and squared per-sample differences (corrupted minus original) in one pass,
and returns `+∞` when the mean noise power is exactly zero and
`10 * log10(signalPower / noisePower)` otherwise. -/
theorem claim_C7 (original noisy : Signal)
    (h : original.values.length = noisy.values.length) :
    calculateSNR original noisy =
      (if ((List.zipWith (fun nv ov => (nv - ov) * (nv - ov)) noisy.values
            original.values).sum / (original.values.length : ℝ)) = 0
        then (⊤ : EReal)
        else (((10 * Real.logb 10
          (((original.values.map (fun v => v * v)).sum /
              (original.values.length : ℝ)) /
            ((List.zipWith (fun nv ov => (nv - ov) * (nv - ov)) noisy.values
              original.values).sum / (original.values.length : ℝ)))) : ℝ) :
          EReal)) := by
  unfold calculateSNR
  rw [snrSums_eq]
  dsimp only
  have e1 : (List.range original.values.length).map
      (fun i => original.values.getD i 0 * original.values.getD i 0) =
        original.values.map (fun v => v * v) :=
    range_map_getD (fun v => v * v) original.values
  have e2 : (List.range original.values.length).map
      (fun i => (noisy.values.getD i 0 - original.values.getD i 0) *
        (noisy.values.getD i 0 - original.values.getD i 0)) =
      List.zipWith (fun nv ov => (nv - ov) * (nv - ov)) noisy.values
        original.values := by
    rw [range_map_getD2 (fun ov nv => (nv - ov) * (nv - ov))
      original.values noisy.values h]
    rw [List.zipWith_comm]
  rw [e1, e2]

/-- C7, witness: a pair of identical one-sample signals, where the noise
power is exactly zero and the metric returns `+∞`. -/
theorem claim_C7_witness :
    (⟨[0], [1]⟩ : Signal).values.length = (⟨[0], [1]⟩ : Signal).values.length ∧
      calculateSNR ⟨[0], [1]⟩ ⟨[0], [1]⟩ = (⊤ : EReal) := by
  refine ⟨rfl, ?_⟩
  rw [claim_C7 ⟨[0], [1]⟩ ⟨[0], [1]⟩ rfl]
  simp

theorem trialsAux1AMzero :
    runTrialsAux ModulationType.AM amParamsC1 0 1 ⟨fun _ => 0, 0⟩ =
      some ([10 * Real.logb 10 (2 / 3)], ⟨fun _ => 0, 4⟩) := by
  unfold runTrialsAux
  rw [trialAMzeroC1 (fun _ => 0) 0 (fun _ _ => rfl)]
  simp only [Option.some_bind, runTrialsAux]

/-- C8: the aggregator collects exactly `numIterations` per-trial output SNR
measurements (each produced by one run of the single-trial operation, none
dropped), reports their arithmetic mean as `OutputSNR_dB`, and reports as
`StdDev` the square root of the squared deviations divided by `N - 1`, which
is nonnegative whenever `numIterations ≥ 2`. -/
theorem claim_C8 (modType : ModulationType) (params : SignalParams)
    (targetSNR : ℝ) (numIterations : ℕ) (rng : RNG) (ms : List ℝ) (rng2 : RNG)
    (h : runTrialsAux modType params targetSNR numIterations rng =
      some (ms, rng2)) :
    ms.length = numIterations ∧
    runSingleSNRSimulation modType params targetSNR numIterations rng =
      some (⟨targetSNR, ms.sum / (numIterations : ℝ),
        Real.sqrt (((ms.map (fun x => (x - ms.sum / (numIterations : ℝ)) *
            (x - ms.sum / (numIterations : ℝ)))).sum) /
          ((numIterations : ℝ) - 1)), modType, numIterations⟩, rng2) ∧
    (∀ j, j < numIterations → ∃ r r2 : RNG,
      runSingleTrial modType params targetSNR r = some (ms.getD j 0, r2)) ∧
    (2 ≤ numIterations →
      0 ≤ Real.sqrt (((ms.map (fun x => (x - ms.sum / (numIterations : ℝ)) *
          (x - ms.sum / (numIterations : ℝ)))).sum) /
        ((numIterations : ℝ) - 1))) := by
  have hlen := runTrialsAux_length modType params targetSNR numIterations rng
    ms rng2 h
  refine ⟨hlen, ?_, runTrialsAux_trials modType params targetSNR numIterations
    rng ms rng2 h, fun _ => Real.sqrt_nonneg _⟩
  rw [runSingleSNRSimulation_eq, h]
  simp only [Option.some_bind]
  rw [calculateMean_eq, calculateStdDev_eq, hlen]

/-- C8, witness: the aggregator characterization on one concrete zero-noise
AM trial. -/
theorem claim_C8_witness :
    runTrialsAux ModulationType.AM amParamsC1 0 1 ⟨fun _ => 0, 0⟩ =
        some ([10 * Real.logb 10 (2 / 3)], ⟨fun _ => 0, 4⟩) ∧
      ([10 * Real.logb 10 (2 / 3)] : List ℝ).length = 1 :=
  ⟨trialsAux1AMzero,
    (claim_C8 ModulationType.AM amParamsC1 0 1 ⟨fun _ => 0, 0⟩
      [10 * Real.logb 10 (2 / 3)] ⟨fun _ => 0, 4⟩ trialsAux1AMzero).1⟩

theorem bind2_ne_error {A B : Type} (x : Option A) (f : A → Option B)
    (g : A → B → List PerformanceResult × List PerformanceResult) :
    (x.bind fun a => (f a).bind fun b =>
        some (Except.ok (g a b) :
          Except Unit (List PerformanceResult × List PerformanceResult))) ≠
      some (Except.error ()) := by
  cases x with
  | none => simp
  | some a =>
    simp only [Option.some_bind]
    cases hf : f a with
    | none => simp
    | some b => simp

theorem simulateSNRPerformanceParallel_isSome (wstreams : ℕ → ℕ → ℝ)
    (modType : ModulationType) (p : SignalParams) (snrRange : List ℝ)
    (numTrials : ℕ) (schedule : List (List ℕ))
    (h : 0 ≤ p.samplingRate * p.duration) :
    ∃ x, simulateSNRPerformanceParallel wstreams modType p snrRange numTrials
      schedule = some x := by
  obtain ⟨w, hw⟩ := collectWorkersSingle_isSome wstreams modType p snrRange
    numTrials h schedule 0
  unfold simulateSNRPerformanceParallel
  rw [hw]
  exact ⟨_, rfl⟩

theorem degenerate_gen_none : generateBaseband degenerateParams = none := by
  unfold generateBaseband
  rw [generateTimeVector_none degenerateParams (by norm_num [degenerateParams])]
  rfl

/-- C9, amended: the run-sweep operation returns a non-nil error exactly when
the configured seed is zero and the secure random source fails; in every
other case, provided the signal generators do not panic (nonnegative sample
counts for both parameter sets), it completes and returns nil error.  With
a panicking generator (see `claim_C9_counterexample`) the run aborts instead
of completing. -/
theorem claim_C9_amended (crypto : Option ℤ) (norm : ℤ → ℕ → ℝ)
    (wstreams : ℕ → ℕ → ℝ) (amParams fmParams : SignalParams)
    (config : SimulationConfig) (schedule : List (List ℕ)) :
    (OptimizedMonteCarloSimulation crypto norm wstreams amParams fmParams
        config schedule = some (Except.error ()) ↔
      (config.seed = 0 ∧ crypto = none)) ∧
    (0 ≤ amParams.samplingRate * amParams.duration →
      0 ≤ fmParams.samplingRate * fmParams.duration →
      ¬(config.seed = 0 ∧ crypto = none) →
      ∃ res, OptimizedMonteCarloSimulation crypto norm wstreams amParams
        fmParams config schedule = some (Except.ok res)) := by
  constructor
  · unfold OptimizedMonteCarloSimulation
    by_cases hs : config.seed = 0
    · rw [if_pos hs]
      cases hc : crypto with
      | none => simp [hs]
      | some c =>
        dsimp only
        constructor
        · intro h
          exfalso
          by_cases hpar : config.useParallel = true ∧ 1 < config.numWorkers
          · rw [if_pos hpar] at h
            exact bind2_ne_error _ _ _ h
          · rw [if_neg hpar] at h
            exact bind2_ne_error _ _ _ h
        · rintro ⟨-, hcn⟩
          exact Option.noConfusion hcn
    · rw [if_neg hs]
      dsimp only
      constructor
      · intro h
        exfalso
        by_cases hpar : config.useParallel = true ∧ 1 < config.numWorkers
        · rw [if_pos hpar] at h
          exact bind2_ne_error _ _ _ h
        · rw [if_neg hpar] at h
          exact bind2_ne_error _ _ _ h
      · rintro ⟨hs2, -⟩
        exact absurd hs2 hs
  · intro ha hf hne
    unfold OptimizedMonteCarloSimulation
    have hreduce : (if config.seed = 0 then crypto else some config.seed) ≠
        none → ∃ seed, (if config.seed = 0 then crypto else some config.seed) =
        some seed := by
      intro hx
      cases hy : (if config.seed = 0 then crypto else some config.seed) with
      | none => exact absurd hy hx
      | some seed => exact ⟨seed, rfl⟩
    obtain ⟨seed, hseed⟩ := hreduce (by
      by_cases hs : config.seed = 0
      · rw [if_pos hs]
        intro hc
        exact hne ⟨hs, hc⟩
      · rw [if_neg hs]
        exact Option.noConfusion)
    rw [hseed]
    dsimp only
    by_cases hpar : config.useParallel = true ∧ 1 < config.numWorkers
    · rw [if_pos hpar]
      obtain ⟨am, ham⟩ := simulateSNRPerformanceParallel_isSome wstreams
        ModulationType.AM amParams config.snrRange config.numTrials schedule ha
      obtain ⟨fm, hfm⟩ := simulateSNRPerformanceParallel_isSome wstreams
        ModulationType.FM fmParams config.snrRange config.numTrials schedule hf
      refine ⟨(am, fm), ?_⟩
      rw [ham]
      simp only [Option.some_bind]
      rw [hfm]
      rfl
    · rw [if_neg hpar]
      obtain ⟨am, ham⟩ := simulateSNRPerformance_isSome ModulationType.AM
        amParams ha config.snrRange config.numTrials ⟨norm seed, 0⟩
      obtain ⟨fm, hfm⟩ := simulateSNRPerformance_isSome ModulationType.FM
        fmParams hf config.snrRange config.numTrials am.2
      refine ⟨(am.1, fm.1), ?_⟩
      rw [ham]
      simp only [Option.some_bind]
      rw [hfm]
      rfl

/-- C9, counterexample: with the nonzero seed 1 the run-sweep neither returns
an error nor completes — the AM generator panics on the negative-duration
parameter set, so the run aborts (modelled `none`), contradicting the claim
that with any nonzero seed the operation completes with nil error. -/
theorem claim_C9_counterexample :
    configC9.seed ≠ 0 ∧
      OptimizedMonteCarloSimulation none (fun _ _ => 0) (fun _ _ => 0)
        degenerateParams okParams configC9 [] = none := by
  refine ⟨by norm_num [configC9], ?_⟩
  unfold OptimizedMonteCarloSimulation
  rw [show configC9.seed = 1 from rfl, if_neg (by norm_num)]
  dsimp only
  rw [if_neg (by rintro ⟨hp, -⟩; exact Bool.noConfusion hp)]
  simp [simulateSNRPerformance, runSingleSNRSimulation, runTrialsAux,
    runSingleTrial, degenerate_gen_none, configC9]

/-- C9, witness: the amended theorem on harmless zero-duration parameters
with a nonzero seed: the run-sweep completes with nil error. -/
theorem claim_C9_witness :
    0 ≤ okParams.samplingRate * okParams.duration ∧
      ¬(configC9.seed = 0 ∧ (some 5 : Option ℤ) = none) ∧
      ∃ res, OptimizedMonteCarloSimulation (some 5) (fun _ _ => 0)
        (fun _ _ => 0) okParams okParams configC9 [] =
          some (Except.ok res) :=
  ⟨by norm_num [okParams], by simp [configC9],
    (claim_C9_amended (some 5) (fun _ _ => 0) (fun _ _ => 0) okParams okParams
      configC9 []).2 (by norm_num [okParams]) (by norm_num [okParams])
      (by simp [configC9])⟩

/-- C10: every sample of the AM envelope detector output is nonnegative: each
output value is the mean of a window of absolute values, so the recovered
message always carries a nonnegative offset. -/
theorem claim_C10 (signal : Signal) :
    ∀ y ∈ (demodulateAM signal).values, 0 ≤ y := by
  intro y hy
  unfold demodulateAM at hy
  refine movingAvg_nonneg _ ?_ y hy
  intro x hx
  obtain ⟨v, -, rfl⟩ := List.mem_map.mp hx
  exact abs_nonneg v

/-- C10, witness: the nonnegativity applied to the demodulation of a
single-sample signal with a negative value. -/
theorem claim_C10_witness : 0 ≤ (demodulateAM ⟨[0], [-3]⟩).values.getD 0 0 := by
  have hlen : 0 < (demodulateAM ⟨[0], [-3]⟩).values.length := by
    simp [demodulateAM, movingAvg_length]
  have hmem : (demodulateAM ⟨[0], [-3]⟩).values.getD 0 0 ∈
      (demodulateAM ⟨[0], [-3]⟩).values := by
    rw [List.getD_eq_getElem?_getD, List.getElem?_eq_getElem hlen]
    exact List.getElem_mem _
  exact claim_C10 ⟨[0], [-3]⟩ _ hmem

/-- C1, witness: the amended theorem applied to the concrete two-worker
execution of `claim_C1_counterexample`. -/
theorem claim_C1_witness :
    ValidSchedule [[0], [1]] 2 ∧
      runParallelMonteCarloSimulation normC1 amParamsC1 fmParamsC1 7 [0, 0] 1
          [[0], [1]] =
        some
          (applyWrites [(0, resultAMzero), (1, resultAMstreamB)]
            (List.replicate 2 defaultPerformanceResult),
            applyWrites [(0, resultFMzero), (1, resultFMzero)]
              (List.replicate 2 defaultPerformanceResult)) := by
  have hvalid : ValidSchedule [[0], [1]] 2 := by
    unfold ValidSchedule
    rw [show ([[0], [1]] : List (List ℕ)).flatten = List.range 2 from rfl]
  exact ⟨hvalid,
    (claim_C1_amended normC1 amParamsC1 fmParamsC1 7 [0, 0] 1 [[0], [1]] hvalid
      [(0, resultAMzero), (1, resultAMstreamB)]
      [(0, resultFMzero), (1, resultFMzero)] collectScheduleB).1⟩

/-- C2, counterexample: the claim says every FM trial aligns the demodulated
output against the baseband with `alignSignals` before computing the output
SNR.  The single-trial operation of `runSingleSNRSimulation` does no such
alignment: on the concrete 10-sample FM configuration `fmParamsC2` with the
noise draws of `streamC2`, the trial as coded and the trial as claimed
produce different output-SNR measurements. -/
theorem claim_C2_counterexample :
    runSingleTrial ModulationType.FM fmParamsC2 0 ⟨streamC2, 0⟩ ≠
      runSingleTrialClaim ModulationType.FM fmParamsC2 0 ⟨streamC2, 0⟩ := by
  rw [trialFMC2, trialClaimFMC2]
  intro h
  simp only [Option.some.injEq, Prod.mk.injEq] at h
  exact scoresC2_ne h.1

/-- C2, amended: (1) AM trials are scored without alignment, exactly as
claimed; (2) FM trials are ALSO scored on the raw demodulated signal — the
output SNR of an FM trial is computed directly against the unaligned
demodulator output; (3) every candidate delay of `alignSignals` lies in the
window `±min (n/10) 100`; (4) the scan of `alignSignals` does select a
delay of maximal count-normalized correlation over that window — the
alignment helper matches its description, but the single-trial operation
never invokes it. -/
theorem claim_C2_amended :
    (∀ (params : SignalParams) (targetSNR : ℝ) (rng : RNG),
        runSingleTrial ModulationType.AM params targetSNR rng =
          runSingleTrialClaim ModulationType.AM params targetSNR rng) ∧
    (∀ (params : SignalParams) (targetSNR : ℝ) (rng : RNG) (om ms : Signal),
        generateBaseband params = some om →
        generateFM params = some ms →
        runSingleTrial ModulationType.FM params targetSNR rng =
          some (calculateSNRfin om
              (demodulateFM (addAWGNWithRNG ms targetSNR rng).1 params),
            (addAWGNWithRNG ms targetSNR rng).2)) ∧
    (∀ (n : ℕ) (d : ℤ), d ∈ delayWindow n → d.natAbs ≤ min (n / 10) 100) ∧
    (∀ (reference signal : List ℝ) (e : ℤ),
        e ∈ delayWindow reference.length →
        0 < (corrCount reference signal e).2 →
        ∃ m, (alignScan reference signal (delayWindow reference.length)).1 =
            some m ∧
          (corrCount reference signal e).1 /
              ((corrCount reference signal e).2 : ℝ) ≤ m ∧
          ∃ db, db ∈ delayWindow reference.length ∧
            bestDelay reference signal = db ∧
            0 < (corrCount reference signal db).2 ∧
            (corrCount reference signal db).1 /
                ((corrCount reference signal db).2 : ℝ) = m) := by
  refine ⟨?_, ?_, ?_, ?_⟩
  · intro params targetSNR rng
    unfold runSingleTrial runSingleTrialClaim
    rfl
  · intro params targetSNR rng om ms h1 h2
    unfold runSingleTrial
    rw [h1, h2]
    simp only [Option.some_bind]
    rfl
  · exact delayWindow_bound
  · intro reference signal e hmem hc
    have hscan : alignScan reference signal (delayWindow reference.length) =
        (delayWindow reference.length).foldl (alignStep reference signal)
          (none, 0) := rfl
    obtain ⟨m, hm, hge⟩ := alignFold_ge reference signal
      (delayWindow reference.length) (none, 0) e hmem hc
    refine ⟨m, by rw [hscan]; exact hm, hge, ?_⟩
    rcases alignFold_attained reference signal (delayWindow reference.length)
      (none, 0) m hm with hcase | ⟨hbad, _⟩
    · obtain ⟨db, hdb, hcb, hmb, hres⟩ := hcase
      exact ⟨db, hdb, by unfold bestDelay; rw [hscan]; exact hres, hcb, hmb.symm⟩
    · exact absurd hbad (by simp)

/-- C2, witness: the amended theorem applied to the AM trial of the
seed-7 stream at `amParamsC1`, to the 10-sample FM trial of `streamC2` at
`fmParamsC2`, and to the candidate delay `0` of the alignment scan of the
10-sample baseband against the constant demodulator output. -/
theorem claim_C2_witness :
    (runSingleTrial ModulationType.AM amParamsC1 0 ⟨normC1 7, 0⟩ =
      runSingleTrialClaim ModulationType.AM amParamsC1 0 ⟨normC1 7, 0⟩) ∧
    (runSingleTrial ModulationType.FM fmParamsC2 0 ⟨streamC2, 0⟩ =
      some (calculateSNRfin ⟨timeValsC2, basebandValsC2⟩
          (demodulateFM
            (addAWGNWithRNG ⟨timeValsC2, fmCleanC2⟩ 0 ⟨streamC2, 0⟩).1
            fmParamsC2),
        (addAWGNWithRNG ⟨timeValsC2, fmCleanC2⟩ 0 ⟨streamC2, 0⟩).2)) ∧
    ((1 : ℤ).natAbs ≤ min (10 / 10) 100) ∧
    (∃ m, (alignScan basebandValsC2 demodValsC2
        (delayWindow basebandValsC2.length)).1 = some m ∧
      (corrCount basebandValsC2 demodValsC2 0).1 /
          ((corrCount basebandValsC2 demodValsC2 0).2 : ℝ) ≤ m ∧
      ∃ db, db ∈ delayWindow basebandValsC2.length ∧
        bestDelay basebandValsC2 demodValsC2 = db ∧
        0 < (corrCount basebandValsC2 demodValsC2 db).2 ∧
        (corrCount basebandValsC2 demodValsC2 db).1 /
            ((corrCount basebandValsC2 demodValsC2 db).2 : ℝ) = m) :=
  ⟨claim_C2_amended.1 amParamsC1 0 ⟨normC1 7, 0⟩,
    claim_C2_amended.2.1 fmParamsC2 0 ⟨streamC2, 0⟩
      ⟨timeValsC2, basebandValsC2⟩ ⟨timeValsC2, fmCleanC2⟩
      basebandFMC2 fmSignalFMC2,
    claim_C2_amended.2.2.1 10 1 (by rw [delayWindow_ten]; norm_num),
    claim_C2_amended.2.2.2 basebandValsC2 demodValsC2 0
      (by rw [show basebandValsC2.length = 10 from rfl, delayWindow_ten]
          norm_num)
      (by rw [corrCountC2_zero]; norm_num)⟩

end AMFM
